import Mathlib

/-!
Verification development for the hotstuff-cursor repository.

This file gives a shallow embedding, in Lean 4, of the parts of the Go
source that the specification claims talk about:

* `evm/simple_vm.go`        — the minimal EVM interpreter and contract calls
* `evm/executor.go`         — transaction execution, validation, receipts
* `evm/state.go`            — `InMemoryStateDB` (accounts, storage, snapshots)
* `evm/trie_state.go`       — `TrieStateDB` (journaled state on tries)
* `trie/trie.go`, `trie/node.go` — the Merkle Patricia Trie and proofs
* `consensus/persistent_consensus.go` — `persistentConsensusBase.OnPropose`,
  `StopVoting` (the last-vote guard)
* `consensus/chainedhotstuff` — `PersistentChainedHotStuff.CommitRule`
* `blockchain/badgerstore.go` — `badgerBlockChain.PruneToHeight`

Go machine integers are modelled as `Nat` with explicit `% 2 ^ 64` where Go
would wrap; `big.Int` values are modelled as `Int` (they are unbounded and
signed in Go as well).  Go maps are modelled as functions into `Option`.
Fallible operations return `Option` values.  Hash functions
(Keccak-256) are modelled as explicit function parameters; theorems that
need collision resistance assume injectivity, and witnesses instantiate
the parameter with a concrete injective encoding.
-/

/-! ## Go arithmetic helpers -/

/-- `big.Int.Uint64` in Go returns the low 64 bits of the absolute value. -/
def goUint64 (i : Int) : Nat := i.natAbs % 2 ^ 64

/-- `leftPad32(x.Bytes())` interpreted as a number: the low 32 bytes of
the absolute value (`leftPad32` keeps the last 32 bytes when longer). -/
def hash32 (i : Int) : Nat := i.natAbs % 2 ^ 256

/-- Go `uint64` subtraction `a - b` (wraps modulo `2 ^ 64`); callers pass
values below `2 ^ 64`. -/
def usub64 (a b : Nat) : Nat := (2 ^ 64 + a - b % 2 ^ 64) % 2 ^ 64

/-- Go conversion `int64(u)` of a `uint64` value: reinterprets the top bit
as a sign. -/
def goInt64 (n : Nat) : Int :=
  if n % 2 ^ 64 < 2 ^ 63 then (n % 2 ^ 64 : Int) else (n % 2 ^ 64 : Int) - 2 ^ 64

/-- Big-endian 32-byte decomposition of a number below `2 ^ 256`
(`leftPad32` of `big.Int.Bytes`). -/
def natToBE32 (n : Nat) : List Nat :=
  (List.range 32).map (fun i => n / 256 ^ (31 - i) % 256)

/-! ## StateDB interface (`evm/state.go`)

The Go `StateDB` interface; the interpreter and the executor are written
against it, so the embedding takes a record of operations over an abstract
state type `σ`, exactly mirroring dynamic dispatch in the source. -/

structure StateDBOps (σ : Type) where
  getState : σ → Nat → Nat → Nat
  setState : σ → Nat → Nat → Nat → σ
  getCode : σ → Nat → List Nat
  setCode : σ → Nat → List Nat → σ
  getCodeSize : σ → Nat → Nat
  getBalance : σ → Nat → Int
  addBalance : σ → Nat → Int → σ
  subBalance : σ → Nat → Int → σ
  getNonce : σ → Nat → Nat
  setNonce : σ → Nat → Nat → σ
  createAccount : σ → Nat → σ
  snapshot : σ → σ × Nat
  revertToSnapshot : σ → Nat → σ

/-! ## The simple EVM interpreter (`evm/simple_vm.go`) -/

/-- The error values `executeSimpleBytecode` can produce
(`fmt.Errorf` messages in the source). -/
inductive VMErr where
  | stackUnderflow
  | incompletePush1
  | incompletePush2
  | memoryOutOfBounds
  | executionReverted
  | stackOverflow
deriving DecidableEq

/-- The return triple of `executeSimpleBytecode` (`[]byte, uint64, error`),
together with the state database it mutated through `SLOAD`/`SSTORE`.
`ret = none` models a `nil` byte slice. -/
structure VMResult (σ : Type) where
  ret : Option (List Nat)
  gasUsed : Nat
  err : Option VMErr
  db : σ
deriving DecidableEq

/-- Memory expansion in `MSTORE` (`neededSize := int(offset + 32)`).
Offsets beyond the host `int` range crash the Go runtime; the model covers
the non-crashing range. -/
def memExpand (m : List Nat) (needed : Nat) : List Nat :=
  if m.length < needed then m ++ List.replicate (needed - m.length) 0 else m

/-- `copy(memory[offset:offset+32], leftPad32(value.Bytes()))` after
expansion. -/
def memStore32 (m : List Nat) (off : Nat) (v : Nat) : List Nat :=
  let m2 := memExpand m (off + 32)
  m2.take off ++ natToBE32 v ++ m2.drop (off + 32)

/-- The execution loop of `executeSimpleBytecode`.  The stack is a list
with its head as the Go slice's last element (the top).  `fuel` bounds the
iteration count; since every opcode advances `pc` by at least one,
`code.length + 1` iterations always suffice, which is what
`executeSimpleBytecode` passes. -/
def vmLoop (ops : StateDBOps σ) (contractAddr : Nat) (code : List Nat)
    (gasLimit : Nat) :
    Nat → σ → List Int → List Nat → Nat → Nat → VMResult σ
  | 0, db, _, _, _, gasUsed => ⟨none, gasUsed, none, db⟩
  | fuel + 1, db, stack, memory, pc, gasUsed =>
    if pc < code.length ∧ gasUsed < gasLimit then
      let opcode := code.getD pc 0
      let g := gasUsed + 3
      if opcode = 0x00 then
        -- STOP
        ⟨none, g, none, db⟩
      else if opcode = 0x01 then
        -- ADD
        match stack with
        | a :: b :: rest =>
          let stack2 := (a + b) :: rest
          if stack2.length > 1024 then ⟨none, g, some .stackOverflow, db⟩
          else vmLoop ops contractAddr code gasLimit fuel db stack2 memory (pc + 1) g
        | _ => ⟨none, g, some .stackUnderflow, db⟩
      else if opcode = 0x02 then
        -- MUL
        match stack with
        | a :: b :: rest =>
          let stack2 := (a * b) :: rest
          if stack2.length > 1024 then ⟨none, g, some .stackOverflow, db⟩
          else vmLoop ops contractAddr code gasLimit fuel db stack2 memory (pc + 1) g
        | _ => ⟨none, g, some .stackUnderflow, db⟩
      else if opcode = 0x03 then
        -- SUB
        match stack with
        | a :: b :: rest =>
          let stack2 := (a - b) :: rest
          if stack2.length > 1024 then ⟨none, g, some .stackOverflow, db⟩
          else vmLoop ops contractAddr code gasLimit fuel db stack2 memory (pc + 1) g
        | _ => ⟨none, g, some .stackUnderflow, db⟩
      else if opcode = 0x52 then
        -- MSTORE
        match stack with
        | a :: b :: rest =>
          let off := goUint64 a
          let memory2 := memStore32 memory off (hash32 b)
          if rest.length > 1024 then ⟨none, g, some .stackOverflow, db⟩
          else vmLoop ops contractAddr code gasLimit fuel db rest memory2 (pc + 1) g
        | _ => ⟨none, g, some .stackUnderflow, db⟩
      else if opcode = 0x54 then
        -- SLOAD
        match stack with
        | a :: rest =>
          let v := ops.getState db contractAddr (hash32 a)
          let stack2 := (v : Int) :: rest
          let g2 := g + 800
          if stack2.length > 1024 then ⟨none, g2, some .stackOverflow, db⟩
          else vmLoop ops contractAddr code gasLimit fuel db stack2 memory (pc + 1) g2
        | _ => ⟨none, g, some .stackUnderflow, db⟩
      else if opcode = 0x55 then
        -- SSTORE
        match stack with
        | a :: b :: rest =>
          let db2 := ops.setState db contractAddr (hash32 a) (hash32 b)
          let g2 := g + 20000
          if rest.length > 1024 then ⟨none, g2, some .stackOverflow, db2⟩
          else vmLoop ops contractAddr code gasLimit fuel db2 rest memory (pc + 1) g2
        | _ => ⟨none, g, some .stackUnderflow, db⟩
      else if opcode = 0x60 then
        -- PUSH1
        if pc + 1 ≥ code.length then ⟨none, g, some .incompletePush1, db⟩
        else
          let stack2 := ((code.getD (pc + 1) 0 : Nat) : Int) :: stack
          if stack2.length > 1024 then ⟨none, g, some .stackOverflow, db⟩
          else vmLoop ops contractAddr code gasLimit fuel db stack2 memory (pc + 2) g
      else if opcode = 0x61 then
        -- PUSH2
        if pc + 2 ≥ code.length then ⟨none, g, some .incompletePush2, db⟩
        else
          let v := (code.getD (pc + 1) 0) * 256 + code.getD (pc + 2) 0
          let stack2 := ((v : Nat) : Int) :: stack
          if stack2.length > 1024 then ⟨none, g, some .stackOverflow, db⟩
          else vmLoop ops contractAddr code gasLimit fuel db stack2 memory (pc + 3) g
      else if opcode = 0x80 then
        -- DUP1
        match stack with
        | a :: rest =>
          let stack2 := a :: a :: rest
          if stack2.length > 1024 then ⟨none, g, some .stackOverflow, db⟩
          else vmLoop ops contractAddr code gasLimit fuel db stack2 memory (pc + 1) g
        | _ => ⟨none, g, some .stackUnderflow, db⟩
      else if opcode = 0xf3 then
        -- RETURN
        match stack with
        | a :: b :: _ =>
          let off := goUint64 a
          let len := goUint64 b
          if off + len > memory.length then ⟨none, g, some .memoryOutOfBounds, db⟩
          else ⟨some ((memory.drop off).take len), g, none, db⟩
        | _ => ⟨none, g, some .stackUnderflow, db⟩
      else if opcode = 0xfd then
        -- REVERT
        match stack with
        | a :: b :: _ =>
          let off := goUint64 a
          let len := goUint64 b
          if off + len > memory.length then ⟨none, g, some .memoryOutOfBounds, db⟩
          else ⟨some ((memory.drop off).take len), g, some .executionReverted, db⟩
        | _ => ⟨none, g, some .stackUnderflow, db⟩
      else
        -- Unsupported opcode, treated as a NOP by the source
        if stack.length > 1024 then ⟨none, g, some .stackOverflow, db⟩
        else vmLoop ops contractAddr code gasLimit fuel db stack memory (pc + 1) g
    else
      ⟨none, gasUsed, none, db⟩

/-- `SimpleEVM.executeSimpleBytecode`: runs the loop from `pc = 0`,
`gasUsed = 0`, empty stack and memory.  The `input` parameter is unused by
the source as well. -/
def executeSimpleBytecode (ops : StateDBOps σ) (contractAddr : Nat)
    (code _input : List Nat) (gasLimit : Nat) (db : σ) : VMResult σ :=
  vmLoop ops contractAddr code gasLimit (code.length + 1) db [] [] 0 0

/-! ## InMemoryStateDB (`evm/state.go`) -/

/-- `AccountState`: balance (`big.Int`), nonce, code hash, storage root.
The zero hash sentinel is `0`. -/
structure AccountState where
  balance : Int
  nonce : Nat
  codeHash : Nat
  storageRoot : Nat
deriving DecidableEq

/-- The empty account `GetAccount` returns for a missing address. -/
def emptyAccount : AccountState := ⟨0, 0, 0, 0⟩

/-- A journal entry of `InMemoryStateDB` (`stateChange`).  The journal is
appended to by every mutation and cleared by `RevertToSnapshot` and
`Commit`; note that `InMemoryStateDB.RevertToSnapshot` never replays it. -/
inductive InMemChange where
  | balanceChange (addr : Nat) (prev : Int)
  | nonceChange (addr : Nat) (prev : Nat)
  | codeChange (addr : Nat) (prev : Option (List Nat))
  | storageChange (addr : Nat) (key : Nat) (prev : Nat)

/-- `InMemoryStateDB`: accounts, per-account storage maps, code, the
snapshot stack (deep copies of the accounts map only) and the journal. -/
structure InMemoryStateDB where
  accounts : Nat → Option AccountState
  storage : Nat → Option (Nat → Option Nat)
  code : Nat → Option (List Nat)
  snapshots : List (Nat → Option AccountState)
  journal : List InMemChange

/-- `NewInMemoryStateDB`. -/
def newInMemoryStateDB : InMemoryStateDB :=
  ⟨fun _ => none, fun _ => none, fun _ => none, [], []⟩

def InMemoryStateDB.getAccount (s : InMemoryStateDB) (addr : Nat) : AccountState :=
  (s.accounts addr).getD emptyAccount

def InMemoryStateDB.setAccount (s : InMemoryStateDB) (addr : Nat)
    (a : AccountState) : InMemoryStateDB :=
  { s with accounts := fun x => if x = addr then some a else s.accounts x }

def InMemoryStateDB.getBalance (s : InMemoryStateDB) (addr : Nat) : Int :=
  (s.getAccount addr).balance

def InMemoryStateDB.setBalance (s : InMemoryStateDB) (addr : Nat) (v : Int) :
    InMemoryStateDB :=
  let a := s.getAccount addr
  let s2 := { s with journal := s.journal ++ [InMemChange.balanceChange addr a.balance] }
  s2.setAccount addr { a with balance := v }

def InMemoryStateDB.addBalance (s : InMemoryStateDB) (addr : Nat) (amt : Int) :
    InMemoryStateDB :=
  let a := s.getAccount addr
  let s2 := { s with journal := s.journal ++ [InMemChange.balanceChange addr a.balance] }
  s2.setAccount addr { a with balance := a.balance + amt }

def InMemoryStateDB.subBalance (s : InMemoryStateDB) (addr : Nat) (amt : Int) :
    InMemoryStateDB :=
  let a := s.getAccount addr
  let s2 := { s with journal := s.journal ++ [InMemChange.balanceChange addr a.balance] }
  s2.setAccount addr { a with balance := a.balance - amt }

def InMemoryStateDB.getNonce (s : InMemoryStateDB) (addr : Nat) : Nat :=
  (s.getAccount addr).nonce

def InMemoryStateDB.setNonce (s : InMemoryStateDB) (addr : Nat) (n : Nat) :
    InMemoryStateDB :=
  let a := s.getAccount addr
  let s2 := { s with journal := s.journal ++ [InMemChange.nonceChange addr a.nonce] }
  s2.setAccount addr { a with nonce := n }

def InMemoryStateDB.getCode (s : InMemoryStateDB) (addr : Nat) : List Nat :=
  (s.code addr).getD []

def InMemoryStateDB.setCode (s : InMemoryStateDB) (addr : Nat) (c : List Nat) :
    InMemoryStateDB :=
  { s with
    journal := s.journal ++ [InMemChange.codeChange addr (s.code addr)]
    code := fun x => if x = addr then some c else s.code x }

def InMemoryStateDB.getCodeSize (s : InMemoryStateDB) (addr : Nat) : Nat :=
  (s.getCode addr).length

def InMemoryStateDB.getState (s : InMemoryStateDB) (addr key : Nat) : Nat :=
  match s.storage addr with
  | some m => (m key).getD 0
  | none => 0

def InMemoryStateDB.setState (s : InMemoryStateDB) (addr key v : Nat) :
    InMemoryStateDB :=
  let m := (s.storage addr).getD (fun _ => none)
  let prev := s.getState addr key
  { s with
    journal := s.journal ++ [InMemChange.storageChange addr key prev]
    storage := fun x =>
      if x = addr then some (fun k => if k = key then some v else m k)
      else s.storage x }

def InMemoryStateDB.createAccount (s : InMemoryStateDB) (addr : Nat) :
    InMemoryStateDB :=
  s.setAccount addr emptyAccount

/-- `Snapshot`: push a deep copy of the accounts map, return its index. -/
def InMemoryStateDB.snapshot (s : InMemoryStateDB) : InMemoryStateDB × Nat :=
  ({ s with snapshots := s.snapshots ++ [s.accounts] }, s.snapshots.length)

/-- `RevertToSnapshot`: restore the accounts map from the snapshot, drop
later snapshots, clear the journal.  Storage and code maps are left
untouched by the source. -/
def InMemoryStateDB.revertToSnapshot (s : InMemoryStateDB) (id : Nat) :
    InMemoryStateDB :=
  if id < s.snapshots.length then
    { s with
      accounts := s.snapshots.getD id (fun _ => none)
      snapshots := s.snapshots.take id
      journal := [] }
  else s

/-- The `StateDB` interface instantiated at `InMemoryStateDB`, as the CLI
worker does. -/
def inMemOps : StateDBOps InMemoryStateDB where
  getState := InMemoryStateDB.getState
  setState := InMemoryStateDB.setState
  getCode := InMemoryStateDB.getCode
  setCode := InMemoryStateDB.setCode
  getCodeSize := InMemoryStateDB.getCodeSize
  getBalance := InMemoryStateDB.getBalance
  addBalance := InMemoryStateDB.addBalance
  subBalance := InMemoryStateDB.subBalance
  getNonce := InMemoryStateDB.getNonce
  setNonce := InMemoryStateDB.setNonce
  createAccount := InMemoryStateDB.createAccount
  snapshot := InMemoryStateDB.snapshot
  revertToSnapshot := InMemoryStateDB.revertToSnapshot

/-! ## Transactions and the executor (`evm/executor.go`, `txpool/transaction.go`) -/

/-- `txpool.Transaction` (the fields the executor reads).  `big.Int`
pointers are assumed non-nil, which the structure makes implicit. -/
structure Tx where
  nonce : Nat
  gasPrice : Int
  gasLimit : Nat
  toAddr : Option Nat
  value : Int
  data : List Nat
deriving DecidableEq

/-- `Transaction.Validate`: non-negative gas price and value, non-zero gas
limit (the nil checks cannot fail in the model). -/
def txValidate (tx : Tx) : Bool :=
  0 ≤ tx.gasPrice ∧ 0 ≤ tx.value ∧ tx.gasLimit ≠ 0

/-- `ExecutionConfig`. -/
structure ExecutionConfig where
  gasLimit : Nat
  baseFee : Int
  chainID : Int

/-- The block header fields the executor reads (`EVMBlock`). -/
structure EVMBlock where
  coinbase : Nat
  number : Nat
  hash : Nat

/-- `TransactionReceipt` (log entries reduced to their count; no claim
inspects their payload). -/
structure TransactionReceipt where
  txHash : Nat
  txIndex : Nat
  blockHash : Nat
  blockNumber : Nat
  fromAddr : Nat
  toAddr : Option Nat
  cumulativeGasUsed : Nat
  gasUsed : Nat
  contractAddress : Option Nat
  logCount : Nat
  status : Nat
  effectiveGasPrice : Int
deriving DecidableEq

/-- `Executor.getSender`: derives the address from the first 20 bytes of
the transaction hash (a placeholder in the source; the hash function is a
parameter `hashTx`).  An address is the high 20 bytes of the 32-byte
hash. -/
def getSender (hashTx : Tx → Nat) (tx : Tx) : Nat :=
  hashTx tx % 2 ^ 256 / 2 ^ 96

/-- `Executor.generateContractAddress`: copy the sender address and mix
the nonce into the last byte. -/
def generateContractAddress (from0 : Nat) (nonce : Nat) : Nat :=
  from0 - from0 % 256 + nonce % 256

/-- `SimpleEVM.ExecuteContract`: result record (`ret, gasUsed, err` plus
the threaded state). -/
structure ContractRes (σ : Type) where
  ret : Option (List Nat)
  gasUsed : Nat
  err : Option VMErr
  db : σ

/-- `SimpleEVM.ExecuteContract`. -/
def ExecuteContract (ops : StateDBOps σ) (caller contract : Nat)
    (input : List Nat) (value : Int) (gasLimit : Nat) (isCreate : Bool)
    (db : σ) : ContractRes σ :=
  let gasUsed := 21000
  if isCreate then
    let gasUsed := gasUsed + 32000
    let code := input
    if code.length > 0 then
      let gasUsed := gasUsed + code.length * 200
      let r := executeSimpleBytecode ops contract code input
        (usub64 gasLimit gasUsed) db
      let gasUsed := gasUsed + r.gasUsed
      match r.err with
      | some e => ⟨none, gasUsed, some e, r.db⟩
      | none =>
        let db2 := ops.setCode r.db contract code
        let db3 :=
          if 0 < value then ops.addBalance (ops.subBalance db2 caller value) contract value
          else db2
        ⟨none, gasUsed, none, db3⟩
    else
      let db2 :=
        if 0 < value then ops.addBalance (ops.subBalance db caller value) contract value
        else db
      ⟨none, gasUsed, none, db2⟩
  else
    let code := ops.getCode db contract
    if code.length = 0 then
      let db2 :=
        if 0 < value then ops.addBalance (ops.subBalance db caller value) contract value
        else db
      ⟨none, gasUsed, none, db2⟩
    else
      let r := executeSimpleBytecode ops contract code input
        (usub64 gasLimit gasUsed) db
      let gasUsed := gasUsed + r.gasUsed
      let db2 :=
        if 0 < value then ops.addBalance (ops.subBalance r.db caller value) contract value
        else r.db
      ⟨r.ret, gasUsed, r.err, db2⟩

/-- `Executor.CreateContractWithEVM`: returns
`(contractAddress?, gasUsed, logCount, err)` with the threaded state. -/
structure CreateRes (σ : Type) where
  contractAddress : Option Nat
  gasUsed : Nat
  logCount : Nat
  err : Option VMErr
  db : σ

def CreateContractWithEVM (ops : StateDBOps σ) (tx : Tx) (from0 : Nat)
    (db : σ) : CreateRes σ :=
  let nonce := usub64 (ops.getNonce db from0) 1
  let contractAddr := generateContractAddress from0 nonce
  let db2 := ops.createAccount db contractAddr
  let r := ExecuteContract ops from0 contractAddr tx.data tx.value tx.gasLimit true db2
  match r.err with
  | some e => ⟨none, r.gasUsed, 0, some e, r.db⟩
  | none => ⟨some contractAddr, r.gasUsed, 1, none, r.db⟩

/-- `Executor.CallContractWithEVM`: returns `(gasUsed, logCount, err)`
with the threaded state. -/
structure CallRes (σ : Type) where
  gasUsed : Nat
  logCount : Nat
  err : Option VMErr
  db : σ

def CallContractWithEVM (ops : StateDBOps σ) (tx : Tx) (from0 : Nat)
    (db : σ) : CallRes σ :=
  match tx.toAddr with
  | none => ⟨0, 0, none, db⟩
  | some to0 =>
    let r := ExecuteContract ops from0 to0 tx.data tx.value tx.gasLimit false db
    let logs1 := if 0 < tx.value then 1 else 0
    let logs2 :=
      if tx.data.length > 0 ∧ ops.getCodeSize r.db to0 > 0 then 1 else 0
    ⟨r.gasUsed, logs1 + logs2, r.err, r.db⟩

/-- Validation errors of `Executor.validateTransaction`. -/
inductive TxErr where
  | invalidTx
  | invalidNonce
  | insufficientBalance
  | gasPriceTooLow
deriving DecidableEq

/-- `Executor.validateTransaction`. -/
def validateTransaction (ops : StateDBOps σ) (cfg : ExecutionConfig)
    (tx : Tx) (db : σ) (from0 : Nat) : Option TxErr :=
  if ¬ txValidate tx then some .invalidTx
  else if tx.nonce ≠ ops.getNonce db from0 then some .invalidNonce
  else if ops.getBalance db from0 < tx.gasPrice * goInt64 tx.gasLimit + tx.value then
    some .insufficientBalance
  else if tx.gasPrice < cfg.baseFee then some .gasPriceTooLow
  else none

/-- `Executor.applyTransaction`: debits the full gas cost up front,
bumps the nonce, runs the call or creation, converts an execution error
into `status = 0`, refunds unused gas, pays the coinbase, and builds the
receipt.  Its Go error result is always nil. -/
def applyTransaction (ops : StateDBOps σ) (hashTx : Tx → Nat) (tx : Tx)
    (db : σ) (block : EVMBlock) (txIndex cumulativeGasUsed : Nat)
    (from0 : Nat) : TransactionReceipt × σ :=
  let effectiveGasPrice := tx.gasPrice
  let gasCost := effectiveGasPrice * goInt64 tx.gasLimit
  let db1 := ops.subBalance db from0 gasCost
  let db2 := ops.setNonce db1 from0 (ops.getNonce db1 from0 + 1)
  let (gasUsed, contractAddress, logCount, err, db3) :=
    match tx.toAddr with
    | none =>
      let r := CreateContractWithEVM ops tx from0 db2
      (r.gasUsed, r.contractAddress, r.logCount, r.err, r.db)
    | some _ =>
      let r := CallContractWithEVM ops tx from0 db2
      (r.gasUsed, (none : Option Nat), r.logCount, r.err, r.db)
  let status : Nat := if err = none then 1 else 0
  let refund := effectiveGasPrice * goInt64 (usub64 tx.gasLimit gasUsed)
  let db4 := ops.addBalance db3 from0 refund
  let gasPayment := effectiveGasPrice * goInt64 gasUsed
  let db5 := ops.addBalance db4 block.coinbase gasPayment
  (⟨hashTx tx, txIndex, block.hash, block.number, from0, tx.toAddr,
    cumulativeGasUsed + gasUsed, gasUsed, contractAddress, logCount,
    status, effectiveGasPrice⟩, db5)

/-- `Executor.ExecuteTransaction`: snapshot, sender recovery, validation
(reverting on a validation error), then `applyTransaction`.  The receipt
is `none` exactly when a non-nil Go error is returned. -/
def ExecuteTransaction (ops : StateDBOps σ) (hashTx : Tx → Nat)
    (cfg : ExecutionConfig) (tx : Tx) (db : σ) (block : EVMBlock)
    (txIndex cumulativeGasUsed : Nat) :
    Option TransactionReceipt × σ × Option TxErr :=
  let (db0, snap) := ops.snapshot db
  let from0 := getSender hashTx tx
  match validateTransaction ops cfg tx db0 from0 with
  | some e => (none, ops.revertToSnapshot db0 snap, some e)
  | none =>
    let (receipt, db1) :=
      applyTransaction ops hashTx tx db0 block txIndex cumulativeGasUsed from0
    (some receipt, db1, none)

/-! ## Consensus data (`hotstuff` core types)

Modelled from the spec: the `hotstuff.Block` and `hotstuff.QuorumCert`
types live in the repository's core package, of which only callers appear
under `src/`; §3 of the specification gives their fields.  A block carries
its parent hash, its quorum certificate (which names a block by hash), its
view and its own content hash; the all-zero hash (here `0`) is the empty
sentinel. -/

structure Block where
  hash : Nat
  parent : Nat
  view : Nat
  qcBlockHash : Nat
deriving DecidableEq

/-! ## PersistentChainedHotStuff.CommitRule (`chainedhotstuff`) -/

/-- `qcRef`: resolve the block a QC points to through the block chain;
the zero hash resolves to nothing. -/
def qcRef (chain : Nat → Option Block) (qcBlockHash : Nat) : Option Block :=
  if qcBlockHash = 0 then none else chain qcBlockHash

/-- The rule state: the locked block and the lock hash most recently
handed to `stateStore.SetLockedBlockHash`. -/
structure HSState where
  bLock : Block
  persistedLockHash : Nat
deriving DecidableEq

/-- `PersistentChainedHotStuff.CommitRule`: resolve the three-chain
`b1, b2, b3` through the QCs, raise (and persist) the lock to `b2` when
its view is higher, and return `b3` exactly on a direct parent chain. -/
def commitRule (chain : Nat → Option Block) (st : HSState) (block : Block) :
    HSState × Option Block :=
  match qcRef chain block.qcBlockHash with
  | none => (st, none)
  | some b1 =>
    match qcRef chain b1.qcBlockHash with
    | none => (st, none)
    | some b2 =>
      let st2 :=
        if b2.view > st.bLock.view then ⟨b2, b2.hash⟩ else st
      match qcRef chain b2.qcBlockHash with
      | none => (st2, none)
      | some b3 =>
        if b1.parent = b2.hash ∧ b2.parent = b3.hash then (st2, some b3)
        else (st2, none)

/-! ## persistentConsensusBase.OnPropose / StopVoting (`consensus`)

The claim is about the `lastVote` component and the order of the
externally visible calls, so the embedding projects the handler onto that
component and records each call as an action; the commit recursion and
view synchronizer mutate other components and appear as actions.  The
environment captures the outcome of each module call the handler
branches on (crypto verification, leader rotation, the vote rule, the
acceptor, signing, leader lookup), in source order.  The `kauri` module is
absent, as in the default configuration. -/

structure CEnv where
  blockView : Nat
  aggQCOk : Bool
  qcValid : Bool
  fromLeader : Bool
  voteRuleOk : Bool
  qcBlockFound : Bool
  acceptOk : Bool
  commitTarget : Option Nat
  signOk : Bool
  nextLeaderSelf : Bool
  leaderFound : Bool

structure CState where
  lastVote : Nat
deriving DecidableEq

/-- The externally visible calls `OnPropose` and `StopVoting` make, in
order: marking the parent command proposed, storing the block, committing,
advancing the view, persisting the last vote (`stateStore.SetLastVote`),
signing (`crypto.CreatePartialCert`) and delivering the vote. -/
inductive CAction where
  | proposedCmd
  | storeBlock
  | commitCalled (v : Nat)
  | advanceView
  | persistLastVote (v : Nat)
  | signPartialCert (v : Nat)
  | voteSelf (v : Nat)
  | voteSent (v : Nat)
deriving DecidableEq

/-- `persistentConsensusBase.OnPropose`, projected onto `lastVote` and
the action trace. -/
def onPropose (e : CEnv) (s : CState) : CState × List CAction :=
  if ¬ e.aggQCOk then (s, [])
  else if ¬ e.qcValid then (s, [])
  else if ¬ e.fromLeader then (s, [])
  else if ¬ e.voteRuleOk then (s, [])
  else
    let tr0 := if e.qcBlockFound then [CAction.proposedCmd] else []
    if ¬ e.acceptOk then (s, tr0)
    else
      let tr1 := tr0 ++ [CAction.storeBlock] ++
        (match e.commitTarget with
         | some v => [CAction.commitCalled v]
         | none => []) ++ [CAction.advanceView]
      if s.lastVote < e.blockView then
        let s2 : CState := ⟨e.blockView⟩
        let tr2 := tr1 ++ [CAction.persistLastVote e.blockView]
        if e.signOk then
          let tr3 := tr2 ++ [CAction.signPartialCert e.blockView]
          if e.nextLeaderSelf then (s2, tr3 ++ [CAction.voteSelf e.blockView])
          else if e.leaderFound then (s2, tr3 ++ [CAction.voteSent e.blockView])
          else (s2, tr3)
        else (s2, tr2)
      else (s, tr1)

/-- `persistentConsensusBase.StopVoting`: raise `lastVote` to `view` and
persist when it actually rose. -/
def stopVoting (view : Nat) (s : CState) : CState × List CAction :=
  if s.lastVote < view then (⟨view⟩, [CAction.persistLastVote view])
  else (s, [])

/-- An event of the projected consensus state machine. -/
inductive CEvent where
  | propose (e : CEnv)
  | stop (v : Nat)

def stepEvent (s : CState) (ev : CEvent) : CState :=
  match ev with
  | .propose e => (onPropose e s).1
  | .stop v => (stopVoting v s).1

def runEvents (s : CState) (evs : List CEvent) : CState :=
  evs.foldl stepEvent s

/-! ## badgerBlockChain.PruneToHeight (`blockchain/badgerstore.go`) -/

/-- The Badger-backed block store: the hash-keyed block table
(`block:<hash>`), the height index (`height:<view>`, overwritten on
conflict), the in-memory prune watermark, and the persisted
`meta:prune_height` value. -/
structure BlockDB where
  blocks : Nat → Option Block
  heightIdx : Nat → Option Nat
  pruneHeight : Nat
  metaPruneHeight : Option Nat

/-- `getByHeightUnsafe`: height index lookup, rejecting the zero hash,
then the block table. -/
def getByHeight (db : BlockDB) (v : Nat) : Option Block :=
  match db.heightIdx v with
  | none => none
  | some h => if h = 0 then none else db.blocks h

/-- The walk of `PruneToHeight` that marks committed views: starting from
the height-indexed block at the committed height, repeatedly fetch the
block at `h` through the height index, look up its parent by hash, stop
when either is missing or the parent's view is below the watermark, and
otherwise mark the parent's view and continue from it.  The source's
`for` loop is modelled with a fuel bound of `h + 1` iterations, which is
exact whenever parent views strictly decrease (on other stores the Go
loop does not terminate). -/
def walkCommitted (db : BlockDB) : Nat → Nat → List Nat → List Nat
  | 0, _, acc => acc
  | fuel + 1, h, acc =>
    if h < db.pruneHeight then acc
    else
      match getByHeight db h with
      | none => acc
      | some b =>
        match db.blocks b.parent with
        | none => acc
        | some p =>
          if p.view < db.pruneHeight then acc
          else walkCommitted db fuel p.view (p.view :: acc)

/-- `PruneToHeight`: mark the committed views, collect every
height-indexed block at a view in `(pruneHeight, height]` whose view is
unmarked (scanning downwards), then raise and persist the watermark.
`committedBlock` is `consensus.CommittedBlock()`. -/
def pruneToHeight (db : BlockDB) (committedBlock : Block) (height : Nat) :
    List Block × BlockDB :=
  let committedHeight := committedBlock.view
  let committedViews :=
    walkCommitted db (committedHeight + 1) committedHeight [committedHeight]
  let heights := (List.range (height - db.pruneHeight)).map (fun i => height - i)
  let forked := heights.filterMap (fun h =>
    if h ∈ committedViews then none else getByHeight db h)
  (forked, { db with pruneHeight := height, metaPruneHeight := some height })

/-! ## Merkle Patricia Trie (`trie/node.go`, `trie/trie.go`)

Trie nodes; a nil child and `EmptyNodeInstance` are identified as
`Node.empty`, and a branch with no value carries the empty byte list
(Go checks `len(Value) > 0` everywhere).  The sixteen-slot child array is
a dedicated list type so that node size and encoding are structurally
recursive.  The recursive trie operations are written with an explicit
iteration bound (`fuel`); every recursive call in the source descends
into a child node or shortens the key, so `nodeSize + key length + 1`
iterations always suffice, and the top-level operations pass exactly
that. -/

mutual
inductive Node where
  | empty
  | leaf (key value : List Nat)
  | ext (key : List Nat) (child : Node)
  | branch (children : NodeList) (value : List Nat)
inductive NodeList where
  | nil
  | cons (head : Node) (tail : NodeList)
end

/-- `GetChild`: out-of-range slots read as empty. -/
def NodeList.getIdx : NodeList → Nat → Node
  | .nil, _ => .empty
  | .cons h _, 0 => h
  | .cons _ t, n + 1 => t.getIdx n

/-- `SetChild`: out-of-range writes are dropped. -/
def NodeList.setIdx : NodeList → Nat → Node → NodeList
  | .nil, _, _ => .nil
  | .cons _ t, 0, x => .cons x t
  | .cons h t, n + 1, x => .cons h (t.setIdx n x)

/-- `NewBranchNode`: sixteen empty children, no value. -/
def newBranchChildren : NodeList :=
  .cons .empty (.cons .empty (.cons .empty (.cons .empty
    (.cons .empty (.cons .empty (.cons .empty (.cons .empty
    (.cons .empty (.cons .empty (.cons .empty (.cons .empty
    (.cons .empty (.cons .empty (.cons .empty (.cons .empty .nil)))))))))))))))

/-- `Node.Type() == EmptyNode`. -/
def Node.isEmptyNode : Node → Bool
  | .empty => true
  | _ => false

/-- `Node.Type() == BranchNode`. -/
def Node.isBranch : Node → Bool
  | .branch _ _ => true
  | _ => false

mutual
/-- Structural node count, used as the iteration bound. -/
def nodeSize : Node → Nat
  | .empty => 1
  | .leaf _ _ => 1
  | .ext _ c => 1 + nodeSize c
  | .branch ch _ => 1 + nodeListSize ch
def nodeListSize : NodeList → Nat
  | .nil => 0
  | .cons h t => nodeSize h + nodeListSize t
end

/-- `keyToNibbles`: high nibble first. -/
def keyToNibbles (key : List Nat) : List Nat :=
  key.flatMap (fun b => [b / 16 % 16, b % 16])

/-- `commonPrefix` of two nibble slices. -/
def commonPref : List Nat → List Nat → Nat
  | a :: as_, b :: bs => if a = b then commonPref as_ bs + 1 else 0
  | _, _ => 0

mutual
/-- Node encoding (`Encode` in `trie/node.go`): a type byte
(branch 0, extension 1, leaf 2, empty 3), then the payload; child
references are the 32-byte big-endian child hashes, all zeros for an
empty child.  `kec` is Keccak-256. -/
def encodeNode (kec : List Nat → Nat) : Node → List Nat
  | .empty => [3]
  | .leaf key value =>
    [2, key.length % 256] ++ key ++
      (if value.length > 255 then
        [255, value.length / 256 % 256, value.length % 256]
      else [value.length % 256]) ++ value
  | .ext key child =>
    [1, key.length % 256] ++ key ++
      natToBE32 (if child.isEmptyNode then 0 else kec (encodeNode kec child))
  | .branch children value =>
    [0] ++ encodeChildren kec children ++
      (if value.length > 0 then [value.length % 256] ++ value else [0])
/-- The concatenated 32-byte child hash references of a branch node. -/
def encodeChildren (kec : List Nat → Nat) : NodeList → List Nat
  | .nil => []
  | .cons c t =>
    natToBE32 (if c.isEmptyNode then 0 else kec (encodeNode kec c)) ++
      encodeChildren kec t
end

/-- `Node.Hash`: Keccak-256 of the encoding; the empty node hashes to the
zero sentinel. -/
def nodeHash (kec : List Nat → Nat) (n : Node) : Nat :=
  if n.isEmptyNode then 0 else kec (encodeNode kec n)

/-- The trie (`MerklePatriciaTrie`). -/
structure MerklePatriciaTrie where
  root : Node

/-- `MerklePatriciaTrie.Root`: zero hash for the empty trie. -/
def MerklePatriciaTrie.Root (kec : List Nat → Nat) (t : MerklePatriciaTrie) : Nat :=
  if t.root.isEmptyNode then 0 else nodeHash kec t.root

/-- The recursive `get`. -/
def getN : Nat → Node → List Nat → Option (List Nat)
  | 0, _, _ => none
  | _, .empty, _ => none
  | _, .leaf k v, key => if k = key then some v else none
  | fuel + 1, .ext k c, key =>
    if key.length < k.length then none
    else if k ≠ key.take k.length then none
    else getN fuel c (key.drop k.length)
  | fuel + 1, .branch children value, key =>
    match key with
    | [] => if value.length > 0 then some value else none
    | n :: rest =>
      if n > 15 then none
      else getN fuel (children.getIdx n) rest

/-- `MerklePatriciaTrie.Get`: empty keys are not found. -/
def MerklePatriciaTrie.Get (t : MerklePatriciaTrie) (key : List Nat) :
    Option (List Nat) :=
  if key = [] then none
  else
    let nibbles := keyToNibbles key
    getN (nodeSize t.root + nibbles.length + 1) t.root nibbles

/-- The recursive `put` (with `putIntoLeaf`, `putIntoExtension`,
`putIntoBranch` inlined at their single call sites).  `none` is the error
return; `t.put(EmptyNodeInstance, k, v)`, which immediately constructs a
leaf, is modelled by the same recursive call. -/
def putN : Nat → Node → List Nat → List Nat → Option Node
  | 0, _, _, _ => none
  | _, .empty, key, value => some (.leaf key value)
  | fuel + 1, .leaf lk lv, key, value =>
    if lk = key then some (.leaf key value)
    else
      let cl := commonPref lk key
      if cl = 0 then do
        -- no common prefix: branch at the root
        let (ch1, bv1) ←
          match lk with
          | [] => some (newBranchChildren, lv)
          | n :: rest => do
            let lc ← putN fuel .empty rest lv
            some (newBranchChildren.setIdx n lc, ([] : List Nat))
        match key with
        | [] => some (Node.branch ch1 value)
        | n :: rest => do
          let nc ← putN fuel .empty rest value
          some (Node.branch (ch1.setIdx n nc) bv1)
      else do
        -- extension over the common prefix wrapping a branch
        let leafRemaining := lk.drop cl
        let keyRemaining := key.drop cl
        let (ch1, bv1) ←
          match leafRemaining with
          | [] => some (newBranchChildren, lv)
          | n :: rest => do
            let lc ← putN fuel .empty rest lv
            some (newBranchChildren.setIdx n lc, ([] : List Nat))
        let (ch2, bv2) ←
          match keyRemaining with
          | [] => some (ch1, value)
          | n :: rest => do
            let nc ← putN fuel .empty rest value
            some (ch1.setIdx n nc, bv1)
        some (Node.ext (key.take cl) (Node.branch ch2 bv2))
  | fuel + 1, .ext ek ec, key, value =>
    let cl := commonPref ek key
    if cl = ek.length then do
      -- key starts with the extension's key: continue down
      let nc ← putN fuel ec (key.drop ek.length) value
      some (Node.ext ek nc)
    else if cl = 0 then do
      -- no common prefix: branch holding the shifted extension
      let extRemaining := ek.drop 1
      let extChild := if extRemaining = [] then ec else Node.ext extRemaining ec
      let ch1 := newBranchChildren.setIdx (ek.getD 0 0) extChild
      match key with
      | [] => some (Node.branch ch1 value)
      | n :: rest => do
        let nc ← putN fuel .empty rest value
        some (Node.branch (ch1.setIdx n nc) ([] : List Nat))
    else do
      -- split the extension at the common prefix
      let extRemaining := ek.drop cl
      let extChild := Node.ext (extRemaining.drop 1) ec
      let ch1 := newBranchChildren.setIdx (extRemaining.getD 0 0) extChild
      let keyRemaining := key.drop cl
      let (ch2, bv2) ←
        match keyRemaining with
        | [] => some (ch1, value)
        | n :: rest => do
          let nc ← putN fuel .empty rest value
          some (ch1.setIdx n nc, ([] : List Nat))
      some (Node.ext (ek.take cl) (Node.branch ch2 bv2))
  | fuel + 1, .branch children bv, key, value =>
    match key with
    | [] => some (Node.branch children value)
    | n :: rest =>
      if n > 15 then none
      else do
        let nc ← putN fuel (children.getIdx n) rest value
        some (Node.branch (children.setIdx n nc) bv)

/-- The recursive `delete`: a branch is rebuilt as a branch with one
child replaced (or its value dropped); the source never merges it down. -/
def deleteN : Nat → Node → List Nat → Node
  | 0, node, _ => node
  | _, .empty, _ => .empty
  | _, .leaf k v, key => if k = key then .empty else .leaf k v
  | fuel + 1, .ext k c, key =>
    if key.length < k.length ∨ k ≠ key.take k.length then .ext k c
    else
      let nc := deleteN fuel c (key.drop k.length)
      if nc.isEmptyNode then .empty else .ext k nc
  | fuel + 1, .branch children value, key =>
    match key with
    | [] => .branch children []
    | n :: rest =>
      if n > 15 then .branch children value
      else
        let nc := deleteN fuel (children.getIdx n) rest
        .branch (children.setIdx n nc) value

/-- `MerklePatriciaTrie.Put`: an empty key is an error (`none`); an empty
value deletes the key. -/
def MerklePatriciaTrie.Put (t : MerklePatriciaTrie) (key value : List Nat) :
    Option MerklePatriciaTrie :=
  if key = [] then none
  else if value = [] then
    let nibbles := keyToNibbles key
    some ⟨deleteN (nodeSize t.root + nibbles.length + 1) t.root nibbles⟩
  else
    let nibbles := keyToNibbles key
    (putN (nodeSize t.root + nibbles.length + 1) t.root nibbles value).map
      (fun r => ⟨r⟩)

/-- `MerklePatriciaTrie.Delete`: an empty key is an error. -/
def MerklePatriciaTrie.Delete (t : MerklePatriciaTrie) (key : List Nat) :
    Option MerklePatriciaTrie :=
  if key = [] then none
  else
    let nibbles := keyToNibbles key
    some ⟨deleteN (nodeSize t.root + nibbles.length + 1) t.root nibbles⟩

/-- The recursive `prove`: collect the encodings of the nodes along the
path (stopping early where the key diverges). -/
def proveN (kec : List Nat → Nat) : Nat → Node → List Nat →
    Option (List (List Nat))
  | 0, _, _ => some []
  | _, .empty, _ => some []
  | _, .leaf k v, _ => some [encodeNode kec (.leaf k v)]
  | fuel + 1, .ext k c, key =>
    let enc := encodeNode kec (.ext k c)
    if key.length < k.length ∨ k ≠ key.take k.length then some [enc]
    else do
      let rest ← proveN kec fuel c (key.drop k.length)
      some (enc :: rest)
  | fuel + 1, .branch children value, key =>
    let enc := encodeNode kec (.branch children value)
    match key with
    | [] => some [enc]
    | n :: rest =>
      if n > 15 then none
      else do
        let tail ← proveN kec fuel (children.getIdx n) rest
        some (enc :: tail)

/-- `MerklePatriciaTrie.Prove`. -/
def MerklePatriciaTrie.Prove (kec : List Nat → Nat) (t : MerklePatriciaTrie)
    (key : List Nat) : Option (List (List Nat)) :=
  if key = [] then none
  else
    let nibbles := keyToNibbles key
    proveN kec (nodeSize t.root + nibbles.length + 1) t.root nibbles

/-- `VerifyProof` in `trie/trie.go`: rejects an empty proof and accepts
everything else (the reconstruction is an unimplemented TODO in the
source). -/
def VerifyProof (_rootHash : Nat) (_key _value : List Nat)
    (proof : List (List Nat)) : Bool :=
  match proof with
  | [] => false
  | _ => true

/-- A concrete injective stand-in for Keccak-256 (base-257 encoding of
the byte list), used to evaluate root hashes in counterexamples. -/
def toyKec (l : List Nat) : Nat :=
  l.foldl (fun acc b => acc * 257 + b % 256 + 1) 0

/-! ## TrieStateDB (`evm/trie_state.go`)

The world trie holds two disjoint key spaces — 20-byte account keys and
37-byte `code:<hash>` keys — and the account payload codec
(JSON in the source) is injective, so the embedding represents the world
trie directly as the two typed maps it implements: `accounts` and
`codeStore`.  Cached per-account storage tries are represented by their
logical key-value content.  Keccak-256, the storage-trie root function
and the node database behind `trie.Database` are environment
parameters. -/

structure TrieEnv where
  keccak : List Nat → Nat
  trieRoot : (Nat → Option Nat) → Nat
  extDB : Nat → Option (Nat → Option Nat)

/-- A journal entry of `TrieStateDB` (`trieStateChange`). -/
inductive TrieChange where
  | balanceC (addr : Nat) (prev : Int)
  | nonceC (addr : Nat) (prev : Nat)
  | codeC (addr : Nat) (prev : List Nat)
  | storageC (addr : Nat) (key : Nat) (prev : Nat)

structure TrieStateDB where
  accounts : Nat → Option AccountState
  codeStore : Nat → Option (List Nat)
  storageTries : Nat → Option (Nat → Option Nat)
  journal : List TrieChange
  snapshots : List Nat

/-- `NewTrieStateDB`. -/
def newTrieStateDB : TrieStateDB :=
  ⟨fun _ => none, fun _ => none, fun _ => none, [], []⟩

def TrieStateDB.getAccount (s : TrieStateDB) (addr : Nat) : AccountState :=
  (s.accounts addr).getD emptyAccount

def TrieStateDB.setAccount (s : TrieStateDB) (addr : Nat) (a : AccountState) :
    TrieStateDB :=
  { s with accounts := fun x => if x = addr then some a else s.accounts x }

def TrieStateDB.getBalance (s : TrieStateDB) (addr : Nat) : Int :=
  (s.getAccount addr).balance

def TrieStateDB.setBalance (s : TrieStateDB) (addr : Nat) (v : Int) :
    TrieStateDB :=
  let a := s.getAccount addr
  let s2 := { s with journal := s.journal ++ [TrieChange.balanceC addr a.balance] }
  s2.setAccount addr { a with balance := v }

def TrieStateDB.addBalance (s : TrieStateDB) (addr : Nat) (amt : Int) :
    TrieStateDB :=
  let a := s.getAccount addr
  let s2 := { s with journal := s.journal ++ [TrieChange.balanceC addr a.balance] }
  s2.setAccount addr { a with balance := a.balance + amt }

def TrieStateDB.subBalance (s : TrieStateDB) (addr : Nat) (amt : Int) :
    TrieStateDB :=
  let a := s.getAccount addr
  let s2 := { s with journal := s.journal ++ [TrieChange.balanceC addr a.balance] }
  s2.setAccount addr { a with balance := a.balance - amt }

def TrieStateDB.getNonce (s : TrieStateDB) (addr : Nat) : Nat :=
  (s.getAccount addr).nonce

def TrieStateDB.setNonce (s : TrieStateDB) (addr : Nat) (n : Nat) :
    TrieStateDB :=
  let a := s.getAccount addr
  let s2 := { s with journal := s.journal ++ [TrieChange.nonceC addr a.nonce] }
  s2.setAccount addr { a with nonce := n }

def TrieStateDB.getCode (s : TrieStateDB) (addr : Nat) : List Nat :=
  let a := s.getAccount addr
  if a.codeHash = 0 then [] else (s.codeStore a.codeHash).getD []

/-- `SetCode`: journal the previous code, store the new code under its
hash in the world trie (unless empty), and point the account at it. -/
def TrieStateDB.setCode (env : TrieEnv) (s : TrieStateDB) (addr : Nat)
    (c : List Nat) : TrieStateDB :=
  let a := s.getAccount addr
  let oldCode := s.getCode addr
  let s2 := { s with journal := s.journal ++ [TrieChange.codeC addr oldCode] }
  if c = [] then s2.setAccount addr { a with codeHash := 0 }
  else
    let h := env.keccak c
    let s3 := { s2 with
      codeStore := fun x => if x = h then some c else s2.codeStore x }
    s3.setAccount addr { a with codeHash := h }

def TrieStateDB.getCodeSize (s : TrieStateDB) (addr : Nat) : Nat :=
  (s.getCode addr).length

/-- `GetState` through `getStorageTrie(addr, false)`: the cached trie if
present, otherwise the trie loaded from the database by the account's
storage root (missing or unloadable tries read as empty).  The source
also caches the loaded trie; reloading is equivalent because the node
database and the storage root only change through `SetState`, which
installs the cache itself. -/
def TrieStateDB.getState (env : TrieEnv) (s : TrieStateDB) (addr key : Nat) :
    Nat :=
  match s.storageTries addr with
  | some t => (t key).getD 0
  | none =>
    let a := s.getAccount addr
    if a.storageRoot = 0 then 0
    else
      match env.extDB a.storageRoot with
      | some t => (t key).getD 0
      | none => 0

/-- The trie `getStorageTrie(addr, true)` hands to `SetState`: the cached
trie, else the database-loaded trie, else a fresh empty one. -/
def TrieStateDB.loadedStorage (env : TrieEnv) (s : TrieStateDB) (addr : Nat) :
    Nat → Option Nat :=
  match s.storageTries addr with
  | some t => t
  | none =>
    let a := s.getAccount addr
    if a.storageRoot = 0 then fun _ => none
    else (env.extDB a.storageRoot).getD (fun _ => none)

/-- `SetState`: journal the previous value, write (or delete, for the
zero value) in the storage trie, cache it, and refresh the account's
storage root. -/
def TrieStateDB.setState (env : TrieEnv) (s : TrieStateDB) (addr key v : Nat) :
    TrieStateDB :=
  let t := s.loadedStorage env addr
  let prev := s.getState env addr key
  let s2 := { s with journal := s.journal ++ [TrieChange.storageC addr key prev] }
  let t2 : Nat → Option Nat :=
    if v = 0 then fun k => if k = key then none else t k
    else fun k => if k = key then some v else t k
  let s3 := { s2 with
    storageTries := fun x => if x = addr then some t2 else s2.storageTries x }
  let a := s3.getAccount addr
  s3.setAccount addr { a with storageRoot := env.trieRoot t2 }

/-- `CreateAccount`: writes a fresh empty account, with no journal
entry. -/
def TrieStateDB.createAccount (s : TrieStateDB) (addr : Nat) : TrieStateDB :=
  s.setAccount addr emptyAccount

/-- `Snapshot`: record the journal length, return the snapshot index. -/
def TrieStateDB.snapshot (s : TrieStateDB) : TrieStateDB × Nat :=
  ({ s with snapshots := s.snapshots ++ [s.journal.length] }, s.snapshots.length)

/-- `trieStateChange.revert`: balance and nonce entries restore the field
through `GetAccount`/`SetAccount`; code and storage entries replay
`SetCode`/`SetState` with the previous value. -/
def TrieStateDB.revertOne (env : TrieEnv) (s : TrieStateDB) :
    TrieChange → TrieStateDB
  | .balanceC addr prev =>
    let a := s.getAccount addr
    s.setAccount addr { a with balance := prev }
  | .nonceC addr prev =>
    let a := s.getAccount addr
    s.setAccount addr { a with nonce := prev }
  | .codeC addr prev => s.setCode env addr prev
  | .storageC addr key prev => s.setState env addr key prev

/-- `RevertToSnapshot`: replay the inverse entries from the journal's end
down to the recorded position, then truncate the journal and the
snapshot stack. -/
def TrieStateDB.revertToSnapshot (env : TrieEnv) (s : TrieStateDB) (id : Nat) :
    TrieStateDB :=
  if id < s.snapshots.length then
    let pos := s.snapshots.getD id 0
    let s2 := ((s.journal.drop pos).reverse).foldl
      (fun st e => TrieStateDB.revertOne env st e) s
    { s2 with journal := s.journal.take pos, snapshots := s.snapshots.take id }
  else s

/-- The mutating operations of the state DB layer covered by the
journal. -/
inductive TrieOp where
  | setBalanceOp (addr : Nat) (v : Int)
  | addBalanceOp (addr : Nat) (amt : Int)
  | subBalanceOp (addr : Nat) (amt : Int)
  | setNonceOp (addr : Nat) (n : Nat)
  | setCodeOp (addr : Nat) (c : List Nat)
  | setStateOp (addr : Nat) (key v : Nat)

def trieApplyOp (env : TrieEnv) (s : TrieStateDB) : TrieOp → TrieStateDB
  | .setBalanceOp a v => s.setBalance a v
  | .addBalanceOp a amt => s.addBalance a amt
  | .subBalanceOp a amt => s.subBalance a amt
  | .setNonceOp a n => s.setNonce a n
  | .setCodeOp a c => s.setCode env a c
  | .setStateOp a k v => s.setState env a k v

def trieApplyOps (env : TrieEnv) (ops : List TrieOp) (s : TrieStateDB) :
    TrieStateDB :=
  ops.foldl (trieApplyOp env) s

/-- Well-formedness of a `TrieStateDB`: every non-zero account code hash
resolves in the world trie to the non-empty code it is the Keccak-256
hash of.  Every state reachable from `NewTrieStateDB` through the public
operations satisfies this. -/
def TrieWF (env : TrieEnv) (s : TrieStateDB) : Prop :=
  ∀ addr a, s.accounts addr = some a → a.codeHash ≠ 0 →
    ∃ c, s.codeStore a.codeHash = some c ∧ c ≠ [] ∧ env.keccak c = a.codeHash

/-- An injective list encoding standing in for Keccak-256 in witnesses
(iterated `Nat.pair`). -/
def injKec : List Nat → Nat
  | [] => 0
  | b :: t => Nat.pair b (injKec t) + 1

/-! ## Concrete instances used by counterexamples and witnesses -/

/-- The bytes of the key `dog` and of `doge`, and two values. -/
def dogKey : List Nat := [100, 111, 103]
def dogeKey : List Nat := [100, 111, 103, 101]
def catVal : List Nat := [99, 97, 116]
def puppyVal : List Nat := [112, 117, 112, 112, 121]

def mptEmpty : MerklePatriciaTrie := ⟨.empty⟩

/-- The trie holding `dog ↦ cat`. -/
def exTrie0 : MerklePatriciaTrie := (mptEmpty.Put dogKey catVal).getD mptEmpty

/-- `exTrie0` after inserting the fresh key `doge ↦ puppy`. -/
def exTrie1 : MerklePatriciaTrie := (exTrie0.Put dogeKey puppyVal).getD mptEmpty

/-- `exTrie1` after deleting `doge` again. -/
def exTrie2 : MerklePatriciaTrie := (exTrie1.Delete dogeKey).getD mptEmpty

/-- Contract bytecode `PUSH1 42, PUSH1 0, SSTORE, PUSH1 0, PUSH1 0,
REVERT`: writes storage slot 0 and then reverts. -/
def revertingCode : List Nat := [96, 42, 96, 0, 85, 96, 0, 96, 0, 253]

/-- A call of the reverting contract at address 9 by the sender whose
hash-derived address is 5. -/
def c3Tx : Tx := ⟨0, 1, 100000, some 9, 0, [1]⟩
def c3Cfg : ExecutionConfig := ⟨8000000, 1, 1337⟩
def c3Block : EVMBlock := ⟨100, 1, 77⟩
def c3HashTx : Tx → Nat := fun _ => 5 * 2 ^ 96
def c3DB : InMemoryStateDB :=
  (newInMemoryStateDB.setBalance 5 1000000000).setCode 9 revertingCode
def c3Run : Option TransactionReceipt × InMemoryStateDB × Option TxErr :=
  ExecuteTransaction inMemOps c3HashTx c3Cfg c3Tx c3DB c3Block 0 0

/-- A pruning scenario: committed chain genesis (hash 1, view 0) ←
`c7B1` (hash 2, view 1) ← `c7B2` (hash 3, view 2), plus a forked block
`c7F2` (hash 4, view 2) whose parent is genesis; the height index at
view 2 was overwritten by the fork. -/
def c7Genesis : Block := ⟨1, 0, 0, 0⟩
def c7B1 : Block := ⟨2, 1, 1, 1⟩
def c7B2 : Block := ⟨3, 2, 2, 2⟩
def c7F2 : Block := ⟨4, 1, 2, 1⟩
def c7DB : BlockDB :=
  ⟨fun h =>
    if h = 1 then some c7Genesis
    else if h = 2 then some c7B1
    else if h = 3 then some c7B2
    else if h = 4 then some c7F2
    else none,
   fun v =>
    if v = 0 then some 1
    else if v = 1 then some 2
    else if v = 2 then some 4
    else none,
   0, some 0⟩
def c7Run : List Block × BlockDB := pruneToHeight c7DB c7B2 2

/-- A fully passing `OnPropose` environment at block view 5. -/
def c1Env : CEnv := ⟨5, true, true, true, true, true, true, some 2, true, false, true⟩

/-- A three-chain for the `CommitRule` witness: `c2W3 ← c2W2 ← c2W1 ←
c2Blk`, each QC naming its parent. -/
def c2W3 : Block := ⟨11, 0, 1, 0⟩
def c2W2 : Block := ⟨12, 11, 2, 11⟩
def c2W1 : Block := ⟨13, 12, 3, 12⟩
def c2Blk : Block := ⟨14, 13, 4, 13⟩
def c2Chain : Nat → Option Block := fun h =>
  if h = 11 then some c2W3
  else if h = 12 then some c2W2
  else if h = 13 then some c2W1
  else if h = 14 then some c2Blk
  else none
def c2St0 : HSState := ⟨c2W3, 0⟩

/-- The trie-state environment for the revert witness. -/
def c4Env : TrieEnv := ⟨injKec, fun _ => 0, fun _ => none⟩

/-- A mutation sequence exercising every journaled operation kind. -/
def c4Ops : List TrieOp :=
  [TrieOp.setBalanceOp 1 5, TrieOp.addBalanceOp 1 7, TrieOp.subBalanceOp 2 3,
   TrieOp.setNonceOp 1 4, TrieOp.setCodeOp 1 [9, 9], TrieOp.setStateOp 1 2 42,
   TrieOp.setStateOp 1 2 43, TrieOp.setCodeOp 1 []]



/-- The journal entry each mutating operation appends, as a function of
the state it was applied to. -/
def entryOf (env : TrieEnv) (s : TrieStateDB) : TrieOp → TrieChange
  | .setBalanceOp a _ => .balanceC a (s.getBalance a)
  | .addBalanceOp a _ => .balanceC a (s.getBalance a)
  | .subBalanceOp a _ => .balanceC a (s.getBalance a)
  | .setNonceOp a _ => .nonceC a (s.getNonce a)
  | .setCodeOp a _ => .codeC a (s.getCode a)
  | .setStateOp a k _ => .storageC a k (s.getState env a k)


/-- Apply a list of operations after a snapshot, then replay the journal
suffix in reverse, as `RevertToSnapshot` does before truncating. -/
def restoreRun (env : TrieEnv) (ops : List TrieOp) (s : TrieStateDB) :
    TrieStateDB :=
  let s2 := trieApplyOps env ops s
  ((s2.journal.drop s.journal.length).reverse).foldl
    (fun st e => st.revertOne env e) s2

/-- The opcodes `executeSimpleBytecode` implements; every other byte is
handled by the default no-op case. -/
def implementedOpcode (b : Nat) : Bool :=
  b = 0x00 || b = 0x01 || b = 0x02 || b = 0x03 || b = 0x52 || b = 0x54 ||
  b = 0x55 || b = 0x60 || b = 0x61 || b = 0x80 || b = 0xf3 || b = 0xfd

/-! # Theorems -/

/-- Claim C8, counterexample: on a fresh state DB, a single `SubBalance`
drives the balance to `-1`; nothing prevents the negative result. -/
theorem c8_counterexample :
    (newInMemoryStateDB.subBalance 5 1).getBalance 5 = -1 ∧
    (newInMemoryStateDB.subBalance 5 1).getBalance 5 < 0 := by
  decide

/-- Claim C8, amended: `SubBalance` performs an unchecked subtraction on
both state DB implementations — the balance after the call is exactly the
previous balance minus the amount, which may be negative; the state DB
layer itself enforces no lower bound. -/
theorem c8_subBalance_unchecked :
    ∀ (s : InMemoryStateDB) (t : TrieStateDB) (addr : Nat) (amt : Int),
      (s.subBalance addr amt).getBalance addr = s.getBalance addr - amt ∧
      (t.subBalance addr amt).getBalance addr = t.getBalance addr - amt := by
  intro s t addr amt
  constructor
  · simp [InMemoryStateDB.subBalance, InMemoryStateDB.getBalance,
      InMemoryStateDB.getAccount, InMemoryStateDB.setAccount]
  · simp [TrieStateDB.subBalance, TrieStateDB.getBalance,
      TrieStateDB.getAccount, TrieStateDB.setAccount]

/-- Claim C4, counterexample: on `InMemoryStateDB`, a storage write made
after `Snapshot()` survives `RevertToSnapshot`: the slot still reads 99
after the revert, while it read 0 when the snapshot was taken.  The
journal is discarded, not replayed. -/
theorem c4_counterexample :
    (((newInMemoryStateDB.snapshot).1.setState 7 3 99).revertToSnapshot
        (newInMemoryStateDB.snapshot).2).getState 7 3 = 99 ∧
    newInMemoryStateDB.getState 7 3 = 0 ∧
    (((newInMemoryStateDB.snapshot).1.setState 7 3 99).revertToSnapshot
        (newInMemoryStateDB.snapshot).2).journal.length = 0 := by
  constructor
  · decide
  · constructor
    · decide
    · decide

/-- Claim C5, amended: `delete` never compacts a branch — deleting in a
branch node always yields a branch node again (one child replaced, or the
value dropped), for every fuel bound, child vector, value and key. -/
theorem c5_delete_never_compacts :
    ∀ (fuel : Nat) (ch : NodeList) (v key : List Nat),
      (deleteN fuel (Node.branch ch v) key).isBranch = true := by
  intro fuel ch v key
  match fuel, key with
  | 0, _ => rfl
  | _ + 1, [] => rfl
  | _ + 1, n :: rest =>
    simp only [deleteN]
    split <;> rfl

set_option maxRecDepth 100000 in
/-- Claim C5, counterexample: `doge` is fresh in the trie holding
`dog ↦ cat`; inserting `doge ↦ puppy` and deleting it again yields a trie
with the same logical content but a different root hash (evaluated with
the injective stand-in hash), because the leftover branch is not merged
down. -/
theorem c5_counterexample :
    exTrie0.Get dogeKey = none ∧
    (exTrie0.Put dogeKey puppyVal).isSome = true ∧
    exTrie2.Get dogKey = exTrie0.Get dogKey ∧
    exTrie2.Get dogeKey = none ∧
    exTrie2.Root toyKec ≠ exTrie0.Root toyKec := by
  refine ⟨by decide, by decide, by decide, by decide, ?_⟩
  decide

set_option maxRecDepth 100000 in
/-- Claim C6: `VerifyProof` accepts a proof for a wrong value and for a
wrong root — it only tests that the proof list is non-empty, while
`Get` shows the proved value is actually `cat`. -/
theorem c6_verifyProof_accepts_anything :
    VerifyProof (exTrie0.Root toyKec) dogKey [1, 2, 3]
      ((exTrie0.Prove toyKec dogKey).getD []) = true ∧
    exTrie0.Get dogKey = some catVal ∧
    catVal ≠ [1, 2, 3] ∧
    VerifyProof 424242 dogKey catVal
      ((exTrie0.Prove toyKec dogKey).getD []) = true := by
  refine ⟨by decide, by decide, by decide, by decide⟩

/-- Claim C9, counterexample: running four unimplemented opcodes under a
gas limit of 6 exhausts the gas after two instructions (the full program
costs 12, as the second run shows), yet `executeSimpleBytecode` returns a
nil error. -/
theorem c9_counterexample :
    (executeSimpleBytecode inMemOps 0 [254, 254, 254, 254] [] 6
      newInMemoryStateDB).err = none ∧
    (executeSimpleBytecode inMemOps 0 [254, 254, 254, 254] [] 6
      newInMemoryStateDB).gasUsed = 6 ∧
    (executeSimpleBytecode inMemOps 0 [254, 254, 254, 254] [] 100
      newInMemoryStateDB).gasUsed = 12 := by
  refine ⟨by decide, by decide, by decide⟩

/-- Claim C3: executing a transaction whose contract code stores to slot
0 and then REVERTs produces a status-0 receipt and no Go error, but the
storage write is not rolled back — slot 0 still holds 42 after
`ExecuteTransaction`, although it held 0 at the snapshot; the gas cost of
the failed execution is charged to the sender. -/
theorem c3_failure_keeps_state_changes :
    c3Run.1.map TransactionReceipt.status = some 0 ∧
    c3Run.2.2 = none ∧
    c3DB.getState 9 0 = 0 ∧
    c3Run.2.1.getState 9 0 = 42 ∧
    c3Run.2.1.getBalance 5 = 1000000000 - 41018 := by
  refine ⟨by decide, by decide, by decide, by decide, by decide⟩

/-- Claim C7: with the height index at the committed view overwritten by
a fork, `PruneToHeight 2` returns the committed-branch ancestor `c7B1`
as forked and omits the real fork `c7F2`, though `c7B1` lies on the
committed branch (it is the committed block's parent) and `c7F2` does
not; the watermark is still raised to 2 and persisted. -/
theorem c7_prune_returns_committed_ancestor :
    c7Run.1 = [c7B1] ∧
    c7B2.parent = c7B1.hash ∧
    getByHeight c7DB 2 = some c7F2 ∧
    c7F2.hash ≠ c7B2.hash ∧ c7F2.view = 2 ∧
    c7F2 ∉ c7Run.1 ∧
    c7Run.2.pruneHeight = 2 ∧ c7Run.2.metaPruneHeight = some 2 := by
  refine ⟨by decide, by decide, by decide, by decide, by decide, by decide,
    by decide, by decide⟩

/-- Exiting the loop with the gas limit reached returns a nil error. -/
theorem vmLoop_gas_exhausted {σ : Type} (ops : StateDBOps σ) (ca : Nat)
    (code : List Nat) (lim fuel : Nat) (db : σ) (st : List Int)
    (mem : List Nat) (pc g : Nat) (h : lim ≤ g) :
    vmLoop ops ca code lim fuel db st mem pc g = ⟨none, g, none, db⟩ := by
  cases fuel with
  | zero => rfl
  | succ f =>
    simp only [vmLoop]
    rw [if_neg]
    rintro ⟨-, hlt⟩
    omega

/-- An ADD with fewer than two stack entries reports a stack
underflow. -/
theorem vmLoop_add_underflow {σ : Type} (ops : StateDBOps σ) (ca : Nat)
    (code : List Nat) (lim fuel : Nat) (db : σ) (st : List Int)
    (mem : List Nat) (pc g : Nat) (hpc : pc < code.length) (hg : g < lim)
    (hop : code.getD pc 0 = 0x01) (hst : st.length < 2) :
    vmLoop ops ca code lim (fuel + 1) db st mem pc g =
      ⟨none, g + 3, some .stackUnderflow, db⟩ := by
  match st, hst with
  | [], _ =>
    simp only [vmLoop, hop]
    rw [if_pos ⟨hpc, hg⟩]
    norm_num
  | [a], _ =>
    simp only [vmLoop, hop]
    rw [if_pos ⟨hpc, hg⟩]
    norm_num

/-- A DUP1 on a full stack (1024 entries) reports a stack overflow. -/
theorem vmLoop_dup1_overflow {σ : Type} (ops : StateDBOps σ) (ca : Nat)
    (code : List Nat) (lim fuel : Nat) (db : σ) (st : List Int)
    (mem : List Nat) (pc g : Nat) (hpc : pc < code.length) (hg : g < lim)
    (hop : code.getD pc 0 = 0x80) (hst : st.length = 1024) :
    vmLoop ops ca code lim (fuel + 1) db st mem pc g =
      ⟨none, g + 3, some .stackOverflow, db⟩ := by
  match st, hst with
  | a :: rest, hst =>
    simp only [List.length_cons] at hst
    simp only [vmLoop, hop]
    rw [if_pos ⟨hpc, hg⟩]
    norm_num
    omega

/-- A RETURN whose slice exceeds the memory bounds reports a memory
out-of-bounds error. -/
theorem vmLoop_return_oob {σ : Type} (ops : StateDBOps σ) (ca : Nat)
    (code : List Nat) (lim fuel : Nat) (db : σ) (a b : Int)
    (rest : List Int) (mem : List Nat) (pc g : Nat)
    (hpc : pc < code.length) (hg : g < lim)
    (hop : code.getD pc 0 = 0xf3)
    (hmem : mem.length < goUint64 a + goUint64 b) :
    vmLoop ops ca code lim (fuel + 1) db (a :: b :: rest) mem pc g =
      ⟨none, g + 3, some .memoryOutOfBounds, db⟩ := by
  simp only [vmLoop, hop]
  rw [if_pos ⟨hpc, hg⟩]
  norm_num
  omega

/-- Any two-popping opcode (`ADD`, `MUL`, `SUB`, `MSTORE`, `SSTORE`,
`RETURN`, `REVERT`) with fewer than two stack entries reports a stack
underflow. -/
theorem vmLoop_pop2_underflow {σ : Type} (ops : StateDBOps σ) (ca : Nat)
    (code : List Nat) (lim fuel : Nat) (db : σ) (st : List Int)
    (mem : List Nat) (pc g : Nat) (hpc : pc < code.length) (hg : g < lim)
    (hop : code.getD pc 0 ∈ ([0x01, 0x02, 0x03, 0x52, 0x55, 0xf3, 0xfd] : List Nat))
    (hst : st.length < 2) :
    vmLoop ops ca code lim (fuel + 1) db st mem pc g =
      ⟨none, g + 3, some .stackUnderflow, db⟩ := by
  simp only [List.mem_cons, List.not_mem_nil, or_false] at hop
  match st, hst with
  | [], _ =>
    rcases hop with h | h | h | h | h | h | h <;>
      (simp only [vmLoop, h]; rw [if_pos ⟨hpc, hg⟩]; norm_num)
  | [a], _ =>
    rcases hop with h | h | h | h | h | h | h <;>
      (simp only [vmLoop, h]; rw [if_pos ⟨hpc, hg⟩]; norm_num)

/-- A one-popping opcode (`SLOAD`, `DUP1`) on an empty stack reports a
stack underflow. -/
theorem vmLoop_pop1_underflow {σ : Type} (ops : StateDBOps σ) (ca : Nat)
    (code : List Nat) (lim fuel : Nat) (db : σ)
    (mem : List Nat) (pc g : Nat) (hpc : pc < code.length) (hg : g < lim)
    (hop : code.getD pc 0 ∈ ([0x54, 0x80] : List Nat)) :
    vmLoop ops ca code lim (fuel + 1) db [] mem pc g =
      ⟨none, g + 3, some .stackUnderflow, db⟩ := by
  simp only [List.mem_cons, List.not_mem_nil, or_false] at hop
  rcases hop with h | h <;>
    (simp only [vmLoop, h]; rw [if_pos ⟨hpc, hg⟩]; norm_num)

/-- Every opcode whose step would leave the stack with more than 1024
entries reports a stack overflow; `SLOAD` and `SSTORE`, whose gas and
state effects differ, are stated separately. -/
theorem vmLoop_growth_overflow {σ : Type} (ops : StateDBOps σ) (ca : Nat)
    (code : List Nat) (lim fuel : Nat) (db : σ) (st : List Int)
    (mem : List Nat) (pc g : Nat) (hpc : pc < code.length) (hg : g < lim)
    (hcond :
      (code.getD pc 0 ∈ ([0x01, 0x02, 0x03] : List Nat) ∧ 1025 < st.length) ∨
      (code.getD pc 0 = 0x52 ∧ 1026 < st.length) ∨
      (code.getD pc 0 = 0x60 ∧ pc + 1 < code.length ∧ 1024 ≤ st.length) ∨
      (code.getD pc 0 = 0x61 ∧ pc + 2 < code.length ∧ 1024 ≤ st.length) ∨
      (code.getD pc 0 = 0x80 ∧ 1024 ≤ st.length) ∨
      (implementedOpcode (code.getD pc 0) = false ∧ 1024 < st.length)) :
    vmLoop ops ca code lim (fuel + 1) db st mem pc g =
      ⟨none, g + 3, some .stackOverflow, db⟩ := by
  rcases hcond with ⟨hop, hlen⟩ | ⟨hop, hlen⟩ | ⟨hop, hpc2, hlen⟩ |
    ⟨hop, hpc2, hlen⟩ | ⟨hop, hlen⟩ | ⟨hop, hlen⟩
  · simp only [List.mem_cons, List.not_mem_nil, or_false] at hop
    rcases st with _ | ⟨a, _ | ⟨b, rest⟩⟩
    · exact absurd hlen (by simp)
    · exact absurd hlen (by simp)
    · simp only [List.length_cons] at hlen
      rcases hop with h | h | h <;>
        (simp only [vmLoop, h]; rw [if_pos ⟨hpc, hg⟩]; norm_num; omega)
  · rcases st with _ | ⟨a, _ | ⟨b, rest⟩⟩
    · exact absurd hlen (by simp)
    · exact absurd hlen (by simp)
    · simp only [List.length_cons] at hlen
      simp only [vmLoop, hop]
      rw [if_pos ⟨hpc, hg⟩]
      norm_num
      omega
  · simp only [vmLoop, hop]
    rw [if_pos ⟨hpc, hg⟩]
    norm_num
    rw [if_neg (by omega), if_pos (by omega)]
  · simp only [vmLoop, hop]
    rw [if_pos ⟨hpc, hg⟩]
    norm_num
    rw [if_neg (by omega), if_pos (by omega)]
  · rcases st with _ | ⟨a, rest⟩
    · exact absurd hlen (by simp)
    · simp only [List.length_cons] at hlen
      simp only [vmLoop, hop]
      rw [if_pos ⟨hpc, hg⟩]
      norm_num
      omega
  · simp only [implementedOpcode, Bool.or_eq_false_iff,
      decide_eq_false_iff_not] at hop
    obtain ⟨⟨⟨⟨⟨⟨⟨⟨⟨⟨⟨h0, h1⟩, h2⟩, h3⟩, h52⟩, h54⟩, h55⟩, h60⟩, h61⟩, h80⟩,
      hf3⟩, hfd⟩ := hop
    simp only [vmLoop]
    rw [if_pos ⟨hpc, hg⟩]
    rw [if_neg h0, if_neg h1, if_neg h2, if_neg h3, if_neg h52, if_neg h54,
      if_neg h55, if_neg h60, if_neg h61, if_neg h80, if_neg hf3, if_neg hfd,
      if_pos (by omega : st.length > 1024)]

/-- An `SLOAD` whose push would exceed 1024 stack entries reports a stack
overflow after charging the 800-gas load cost. -/
theorem vmLoop_sload_overflow {σ : Type} (ops : StateDBOps σ) (ca : Nat)
    (code : List Nat) (lim fuel : Nat) (db : σ) (st : List Int)
    (mem : List Nat) (pc g : Nat) (hpc : pc < code.length) (hg : g < lim)
    (hop : code.getD pc 0 = 0x54) (hlen : 1024 < st.length) :
    vmLoop ops ca code lim (fuel + 1) db st mem pc g =
      ⟨none, g + 3 + 800, some .stackOverflow, db⟩ := by
  rcases st with _ | ⟨a, rest⟩
  · exact absurd hlen (by simp)
  · simp only [List.length_cons] at hlen
    simp only [vmLoop, hop]
    rw [if_pos ⟨hpc, hg⟩]
    norm_num
    omega

/-- An `SSTORE` left with more than 1024 stack entries after popping
reports a stack overflow after the write and the 20000-gas charge. -/
theorem vmLoop_sstore_overflow {σ : Type} (ops : StateDBOps σ) (ca : Nat)
    (code : List Nat) (lim fuel : Nat) (db : σ) (a b : Int)
    (rest : List Int) (mem : List Nat) (pc g : Nat)
    (hpc : pc < code.length) (hg : g < lim)
    (hop : code.getD pc 0 = 0x55) (hlen : 1024 < rest.length) :
    vmLoop ops ca code lim (fuel + 1) db (a :: b :: rest) mem pc g =
      ⟨none, g + 3 + 20000, some .stackOverflow,
        ops.setState db ca (hash32 a) (hash32 b)⟩ := by
  simp only [vmLoop, hop]
  rw [if_pos ⟨hpc, hg⟩]
  norm_num
  omega

/-- A `RETURN` or `REVERT` whose slice exceeds the memory bounds reports
a memory out-of-bounds error. -/
theorem vmLoop_mem_oob {σ : Type} (ops : StateDBOps σ) (ca : Nat)
    (code : List Nat) (lim fuel : Nat) (db : σ) (a b : Int)
    (rest : List Int) (mem : List Nat) (pc g : Nat)
    (hpc : pc < code.length) (hg : g < lim)
    (hop : code.getD pc 0 ∈ ([0xf3, 0xfd] : List Nat))
    (hmem : mem.length < goUint64 a + goUint64 b) :
    vmLoop ops ca code lim (fuel + 1) db (a :: b :: rest) mem pc g =
      ⟨none, g + 3, some .memoryOutOfBounds, db⟩ := by
  simp only [List.mem_cons, List.not_mem_nil, or_false] at hop
  rcases hop with h | h <;>
    (simp only [vmLoop, h]; rw [if_pos ⟨hpc, hg⟩]; norm_num; omega)

/-- Claim C9, amended: out-of-gas exits the loop with a nil error (first
conjunct) — which is how a program whose gas runs out mid-execution
ends — while every stack underflow (any popping opcode, `ADD`, `MUL`,
`SUB`, `MSTORE`, `SSTORE`, `RETURN`, `REVERT`, `SLOAD`, `DUP1`, with too
few entries), every stack growth beyond 1024 entries (any opcode,
including unimplemented ones; `SLOAD` and `SSTORE` stated separately for
their distinct gas and state effects) and every memory out-of-bounds
access in `RETURN` or `REVERT` terminates execution with the
corresponding error. -/
theorem c9_error_semantics :
    (∀ (σ : Type) (ops : StateDBOps σ) (ca : Nat) (code : List Nat)
      (lim fuel : Nat) (db : σ) (st : List Int) (mem : List Nat) (pc g : Nat),
      lim ≤ g →
      vmLoop ops ca code lim fuel db st mem pc g = ⟨none, g, none, db⟩) ∧
    (∀ (σ : Type) (ops : StateDBOps σ) (ca : Nat) (code : List Nat)
      (lim fuel : Nat) (db : σ) (st : List Int) (mem : List Nat) (pc g : Nat),
      pc < code.length → g < lim →
      code.getD pc 0 ∈ ([0x01, 0x02, 0x03, 0x52, 0x55, 0xf3, 0xfd] : List Nat) →
      st.length < 2 →
      vmLoop ops ca code lim (fuel + 1) db st mem pc g =
        ⟨none, g + 3, some .stackUnderflow, db⟩) ∧
    (∀ (σ : Type) (ops : StateDBOps σ) (ca : Nat) (code : List Nat)
      (lim fuel : Nat) (db : σ) (mem : List Nat) (pc g : Nat),
      pc < code.length → g < lim →
      code.getD pc 0 ∈ ([0x54, 0x80] : List Nat) →
      vmLoop ops ca code lim (fuel + 1) db [] mem pc g =
        ⟨none, g + 3, some .stackUnderflow, db⟩) ∧
    (∀ (σ : Type) (ops : StateDBOps σ) (ca : Nat) (code : List Nat)
      (lim fuel : Nat) (db : σ) (st : List Int) (mem : List Nat) (pc g : Nat),
      pc < code.length → g < lim →
      ((code.getD pc 0 ∈ ([0x01, 0x02, 0x03] : List Nat) ∧ 1025 < st.length) ∨
       (code.getD pc 0 = 0x52 ∧ 1026 < st.length) ∨
       (code.getD pc 0 = 0x60 ∧ pc + 1 < code.length ∧ 1024 ≤ st.length) ∨
       (code.getD pc 0 = 0x61 ∧ pc + 2 < code.length ∧ 1024 ≤ st.length) ∨
       (code.getD pc 0 = 0x80 ∧ 1024 ≤ st.length) ∨
       (implementedOpcode (code.getD pc 0) = false ∧ 1024 < st.length)) →
      vmLoop ops ca code lim (fuel + 1) db st mem pc g =
        ⟨none, g + 3, some .stackOverflow, db⟩) ∧
    (∀ (σ : Type) (ops : StateDBOps σ) (ca : Nat) (code : List Nat)
      (lim fuel : Nat) (db : σ) (st : List Int) (mem : List Nat) (pc g : Nat),
      pc < code.length → g < lim →
      code.getD pc 0 = 0x54 → 1024 < st.length →
      vmLoop ops ca code lim (fuel + 1) db st mem pc g =
        ⟨none, g + 3 + 800, some .stackOverflow, db⟩) ∧
    (∀ (σ : Type) (ops : StateDBOps σ) (ca : Nat) (code : List Nat)
      (lim fuel : Nat) (db : σ) (a b : Int) (rest : List Int)
      (mem : List Nat) (pc g : Nat),
      pc < code.length → g < lim →
      code.getD pc 0 = 0x55 → 1024 < rest.length →
      vmLoop ops ca code lim (fuel + 1) db (a :: b :: rest) mem pc g =
        ⟨none, g + 3 + 20000, some .stackOverflow,
          ops.setState db ca (hash32 a) (hash32 b)⟩) ∧
    (∀ (σ : Type) (ops : StateDBOps σ) (ca : Nat) (code : List Nat)
      (lim fuel : Nat) (db : σ) (a b : Int) (rest : List Int)
      (mem : List Nat) (pc g : Nat),
      pc < code.length → g < lim →
      code.getD pc 0 ∈ ([0xf3, 0xfd] : List Nat) →
      mem.length < goUint64 a + goUint64 b →
      vmLoop ops ca code lim (fuel + 1) db (a :: b :: rest) mem pc g =
        ⟨none, g + 3, some .memoryOutOfBounds, db⟩) := by
  refine ⟨?_, ?_, ?_, ?_, ?_, ?_, ?_⟩
  · intro σ ops ca code lim fuel db st mem pc g h
    exact vmLoop_gas_exhausted ops ca code lim fuel db st mem pc g h
  · intro σ ops ca code lim fuel db st mem pc g hpc hg hop hst
    exact vmLoop_pop2_underflow ops ca code lim fuel db st mem pc g hpc hg hop hst
  · intro σ ops ca code lim fuel db mem pc g hpc hg hop
    exact vmLoop_pop1_underflow ops ca code lim fuel db mem pc g hpc hg hop
  · intro σ ops ca code lim fuel db st mem pc g hpc hg hcond
    exact vmLoop_growth_overflow ops ca code lim fuel db st mem pc g hpc hg hcond
  · intro σ ops ca code lim fuel db st mem pc g hpc hg hop hlen
    exact vmLoop_sload_overflow ops ca code lim fuel db st mem pc g hpc hg hop hlen
  · intro σ ops ca code lim fuel db a b rest mem pc g hpc hg hop hlen
    exact vmLoop_sstore_overflow ops ca code lim fuel db a b rest mem pc g hpc hg hop hlen
  · intro σ ops ca code lim fuel db a b rest mem pc g hpc hg hop hmem
    exact vmLoop_mem_oob ops ca code lim fuel db a b rest mem pc g hpc hg hop hmem

set_option maxRecDepth 10000 in
/-- Witness for `c9_error_semantics`: concrete runs for out-of-gas,
`REVERT` underflow, `SLOAD` underflow, `DUP1` overflow, `SLOAD`
overflow, `SSTORE` overflow and `REVERT` out-of-bounds. -/
theorem c9_error_semantics_witness :
    ((6 : Nat) ≤ 7 ∧
      vmLoop inMemOps 0 [0] 6 3 newInMemoryStateDB [] [] 0 7 =
        ⟨none, 7, none, newInMemoryStateDB⟩) ∧
    ((0 : Nat) < 1 ∧ (0 : Nat) < 6 ∧
      List.getD [253] 0 0 ∈ ([0x01, 0x02, 0x03, 0x52, 0x55, 0xf3, 0xfd] : List Nat) ∧
      ([] : List Int).length < 2 ∧
      vmLoop inMemOps 0 [253] 6 1 newInMemoryStateDB [] [] 0 0 =
        ⟨none, 3, some .stackUnderflow, newInMemoryStateDB⟩) ∧
    (List.getD [84] 0 0 ∈ ([0x54, 0x80] : List Nat) ∧
      vmLoop inMemOps 0 [84] 6 1 newInMemoryStateDB [] [] 0 0 =
        ⟨none, 3, some .stackUnderflow, newInMemoryStateDB⟩) ∧
    (List.getD [128] 0 0 = 0x80 ∧
      1024 ≤ (List.replicate 1024 (0 : Int)).length ∧
      vmLoop inMemOps 0 [128] 6 1 newInMemoryStateDB
        (List.replicate 1024 (0 : Int)) [] 0 0 =
        ⟨none, 3, some .stackOverflow, newInMemoryStateDB⟩) ∧
    (List.getD [84] 0 0 = 0x54 ∧
      1024 < (List.replicate 1025 (0 : Int)).length ∧
      vmLoop inMemOps 0 [84] 6 1 newInMemoryStateDB
        (List.replicate 1025 (0 : Int)) [] 0 0 =
        ⟨none, 3 + 800, some .stackOverflow, newInMemoryStateDB⟩) ∧
    (List.getD [85] 0 0 = 0x55 ∧
      1024 < (List.replicate 1025 (0 : Int)).length ∧
      vmLoop inMemOps 0 [85] 6 1 newInMemoryStateDB
        (1 :: 2 :: List.replicate 1025 (0 : Int)) [] 0 0 =
        ⟨none, 3 + 20000, some .stackOverflow,
          inMemOps.setState newInMemoryStateDB 0 (hash32 1) (hash32 2)⟩) ∧
    (List.getD [253] 0 0 ∈ ([0xf3, 0xfd] : List Nat) ∧
      ([] : List Nat).length < goUint64 1 + goUint64 1 ∧
      vmLoop inMemOps 0 [253] 6 1 newInMemoryStateDB [1, 1] [] 0 0 =
        ⟨none, 3, some .memoryOutOfBounds, newInMemoryStateDB⟩) :=
  ⟨⟨by decide,
    c9_error_semantics.1 _ inMemOps 0 [0] 6 3 newInMemoryStateDB [] [] 0 7
      (by decide)⟩,
   ⟨by decide, by decide, by decide, by decide,
    c9_error_semantics.2.1 _ inMemOps 0 [253] 6 0 newInMemoryStateDB [] [] 0 0
      (by decide) (by decide) (by decide) (by decide)⟩,
   ⟨by decide,
    c9_error_semantics.2.2.1 _ inMemOps 0 [84] 6 0 newInMemoryStateDB [] 0 0
      (by decide) (by decide) (by decide)⟩,
   ⟨by decide, by simp,
    c9_error_semantics.2.2.2.1 _ inMemOps 0 [128] 6 0 newInMemoryStateDB
      (List.replicate 1024 (0 : Int)) [] 0 0 (by decide) (by decide)
      (Or.inr (Or.inr (Or.inr (Or.inr (Or.inl ⟨by decide, by simp⟩)))))⟩,
   ⟨by decide, by simp,
    c9_error_semantics.2.2.2.2.1 _ inMemOps 0 [84] 6 0 newInMemoryStateDB
      (List.replicate 1025 (0 : Int)) [] 0 0 (by decide) (by decide)
      (by decide) (by simp)⟩,
   ⟨by decide, by simp,
    c9_error_semantics.2.2.2.2.2.1 _ inMemOps 0 [85] 6 0 newInMemoryStateDB
      1 2 (List.replicate 1025 (0 : Int)) [] 0 0 (by decide) (by decide)
      (by decide) (by simp)⟩,
   ⟨by decide, by decide,
    c9_error_semantics.2.2.2.2.2.2 _ inMemOps 0 [253] 6 0 newInMemoryStateDB
      1 1 [] [] 0 0 (by decide) (by decide) (by decide) (by decide)⟩⟩

/-- A byte outside the implemented opcode set is a no-op step: 3 gas,
stack, memory and state unchanged, program counter advanced. -/
theorem vmLoop_nop_step {σ : Type} (ops : StateDBOps σ) (ca : Nat)
    (code : List Nat) (lim fuel : Nat) (db : σ) (st : List Int)
    (mem : List Nat) (pc g : Nat) (hpc : pc < code.length) (hg : g < lim)
    (hop : implementedOpcode (code.getD pc 0) = false)
    (hst : st.length ≤ 1024) :
    vmLoop ops ca code lim (fuel + 1) db st mem pc g =
      vmLoop ops ca code lim fuel db st mem (pc + 1) (g + 3) := by
  simp only [implementedOpcode, Bool.or_eq_false_iff, decide_eq_false_iff_not] at hop
  obtain ⟨⟨⟨⟨⟨⟨⟨⟨⟨⟨⟨h0, h1⟩, h2⟩, h3⟩, h52⟩, h54⟩, h55⟩, h60⟩, h61⟩, h80⟩, hf3⟩, hfd⟩ := hop
  simp only [vmLoop]
  rw [if_pos ⟨hpc, hg⟩]
  rw [if_neg h0, if_neg h1, if_neg h2, if_neg h3, if_neg h52, if_neg h54,
    if_neg h55, if_neg h60, if_neg h61, if_neg h80, if_neg hf3, if_neg hfd,
    if_neg (by omega : ¬ st.length > 1024)]

/-- A program consisting solely of unimplemented opcodes runs to
completion: no error, 3 gas per byte, state untouched. -/
theorem vmLoop_all_nops {σ : Type} (ops : StateDBOps σ) (ca : Nat)
    (code : List Nat) (lim : Nat)
    (hcode : ∀ b ∈ code, implementedOpcode b = false)
    (hlim : 3 * code.length ≤ lim) :
    ∀ (fuel pc : Nat) (db : σ), pc ≤ code.length → code.length < fuel + pc →
      vmLoop ops ca code lim fuel db [] [] pc (3 * pc) =
        ⟨none, 3 * code.length, none, db⟩ := by
  intro fuel
  induction fuel with
  | zero => intro pc db hpc hfuel; omega
  | succ f ih =>
    intro pc db hpc hfuel
    rcases Nat.lt_or_ge pc code.length with hlt | hge
    · have hg : 3 * pc < lim := by omega
      have hop : implementedOpcode (code.getD pc 0) = false := by
        apply hcode
        rw [List.getD_eq_getElem _ _ hlt]
        exact List.getElem_mem hlt
      rw [vmLoop_nop_step ops ca code lim f db [] [] pc (3 * pc) hlt hg hop
        (by simp)]
      have h3 : 3 * pc + 3 = 3 * (pc + 1) := by ring
      rw [h3]
      exact ih (pc + 1) db (by omega) (by omega)
    · have hpc_eq : pc = code.length := by omega
      subst hpc_eq
      simp only [vmLoop]
      rw [if_neg]
      rintro ⟨h, -⟩
      omega

/-- Claim C10: a code byte outside the implemented opcode set is treated
as a no-op — it charges the 3-gas base cost, leaves the stack, memory and
state unchanged and advances to the next instruction (first conjunct) —
so a program of arbitrary unrecognized opcodes executes to completion
without error, using 3 gas per byte (second conjunct). -/
theorem c10_unimplemented_opcodes_are_nops :
    (∀ (σ : Type) (ops : StateDBOps σ) (ca : Nat) (code : List Nat)
      (lim fuel : Nat) (db : σ) (st : List Int) (mem : List Nat) (pc g : Nat),
      pc < code.length → g < lim →
      implementedOpcode (code.getD pc 0) = false → st.length ≤ 1024 →
      vmLoop ops ca code lim (fuel + 1) db st mem pc g =
        vmLoop ops ca code lim fuel db st mem (pc + 1) (g + 3)) ∧
    (∀ (σ : Type) (ops : StateDBOps σ) (ca : Nat) (code inp : List Nat)
      (lim : Nat) (db : σ),
      (∀ b ∈ code, implementedOpcode b = false) → 3 * code.length ≤ lim →
      executeSimpleBytecode ops ca code inp lim db =
        ⟨none, 3 * code.length, none, db⟩) := by
  constructor
  · intro σ ops ca code lim fuel db st mem pc g hpc hg hop hst
    exact vmLoop_nop_step ops ca code lim fuel db st mem pc g hpc hg hop hst
  · intro σ ops ca code inp lim db hcode hlim
    have h := vmLoop_all_nops ops ca code lim hcode hlim (code.length + 1) 0 db
      (by omega) (by omega)
    simpa [executeSimpleBytecode] using h

set_option maxRecDepth 10000 in
/-- Witness for `c10_unimplemented_opcodes_are_nops` at a concrete
two-byte program of unrecognized opcodes. -/
theorem c10_unimplemented_opcodes_are_nops_witness :
    (∀ b ∈ [254, 171], implementedOpcode b = false) ∧
    3 * ([254, 171] : List Nat).length ≤ 100 ∧
    executeSimpleBytecode inMemOps 0 [254, 171] [] 100 newInMemoryStateDB =
      ⟨none, 3 * ([254, 171] : List Nat).length, none, newInMemoryStateDB⟩ :=
  ⟨by decide, by decide,
   c10_unimplemented_opcodes_are_nops.2 _ inMemOps 0 [254, 171] [] 100
     newInMemoryStateDB (by decide) (by decide)⟩

/-- Claim C2: `CommitRule` resolves `b1 = qc(block)`, `b2 = qc(b1)`,
`b3 = qc(b2)` through the block store; if any resolution fails it returns
none (with the lock untouched while `b2` is unresolved); once `b2`
resolves, the lock is raised to `b2` — and its hash persisted — exactly
when `b2.view` exceeds the locked view; and with all three resolved it
returns `b3` exactly when `b1.parent = b2.hash` and
`b2.parent = b3.hash`. -/
theorem c2_commitRule_characterization :
    ∀ (chain : Nat → Option Block) (st : HSState) (block : Block),
      (qcRef chain block.qcBlockHash = none →
        commitRule chain st block = (st, none)) ∧
      (∀ b1, qcRef chain block.qcBlockHash = some b1 →
        (qcRef chain b1.qcBlockHash = none →
          commitRule chain st block = (st, none)) ∧
        (∀ b2, qcRef chain b1.qcBlockHash = some b2 →
          ((commitRule chain st block).1 =
            if b2.view > st.bLock.view then ⟨b2, b2.hash⟩ else st) ∧
          (qcRef chain b2.qcBlockHash = none →
            (commitRule chain st block).2 = none) ∧
          (∀ b3, qcRef chain b2.qcBlockHash = some b3 →
            ((commitRule chain st block).2 = some b3 ↔
              b1.parent = b2.hash ∧ b2.parent = b3.hash) ∧
            ((commitRule chain st block).2 ≠ none →
              b1.parent = b2.hash ∧ b2.parent = b3.hash)))) := by
  intro chain st block
  refine ⟨fun h => by simp [commitRule, h], ?_⟩
  intro b1 h1
  refine ⟨fun h2 => by simp [commitRule, h1, h2], ?_⟩
  intro b2 h2
  refine ⟨?_, ?_, ?_⟩
  · rcases h3 : qcRef chain b2.qcBlockHash with _ | b3 <;>
      simp [commitRule, h1, h2, h3] <;> split <;> simp
  · intro h3
    simp [commitRule, h1, h2, h3]
  · intro b3 h3
    constructor
    · simp only [commitRule, h1, h2, h3]
      split <;> simp_all
    · simp only [commitRule, h1, h2, h3]
      split <;> simp_all

/-- Witness for `c2_commitRule_characterization` on the concrete
three-chain `c2W3 ← c2W2 ← c2W1 ← c2Blk`: the rule decides `c2W3` and
raises the lock to `c2W2`, persisting its hash 12. -/
theorem c2_commitRule_characterization_witness :
    qcRef c2Chain c2Blk.qcBlockHash = some c2W1 ∧
    qcRef c2Chain c2W1.qcBlockHash = some c2W2 ∧
    qcRef c2Chain c2W2.qcBlockHash = some c2W3 ∧
    (commitRule c2Chain c2St0 c2Blk).2 = some c2W3 ∧
    (commitRule c2Chain c2St0 c2Blk).1 = ⟨c2W2, 12⟩ :=
  ⟨by decide, by decide, by decide,
   (((((c2_commitRule_characterization c2Chain c2St0 c2Blk).2 c2W1
      (by decide)).2 c2W2 (by decide)).2.2 c2W3 (by decide)).1).2
     (by decide),
   by
    have h := ((((c2_commitRule_characterization c2Chain c2St0 c2Blk).2 c2W1
      (by decide)).2 c2W2 (by decide)).1)
    simpa using h⟩

set_option maxHeartbeats 2000000 in
/-- `OnPropose` never lowers `lastVote`. -/
theorem onPropose_lastVote_mono (e : CEnv) (s : CState) :
    s.lastVote ≤ (onPropose e s).1.lastVote := by
  obtain ⟨bv, a, q, f, vr, qf, ac, ct, so, nls, lf⟩ := e
  cases a <;> cases q <;> cases f <;> cases vr <;> cases ac <;>
    simp only [onPropose] <;> norm_num <;>
    (try (split_ifs <;> simp)) <;> omega

/-- `StopVoting` never lowers `lastVote`. -/
theorem stopVoting_lastVote_mono (v : Nat) (s : CState) :
    s.lastVote ≤ (stopVoting v s).1.lastVote := by
  unfold stopVoting
  split_ifs <;> simp <;> omega

/-- `lastVote` is non-decreasing across any event sequence. -/
theorem runEvents_lastVote_mono (evs : List CEvent) (s0 : CState) :
    s0.lastVote ≤ (runEvents s0 evs).lastVote := by
  induction evs generalizing s0 with
  | nil => exact Nat.le_refl _
  | cons ev rest ih =>
    refine Nat.le_trans ?_ (ih (stepEvent s0 ev))
    cases ev with
    | propose e => exact onPropose_lastVote_mono e s0
    | stop v => exact stopVoting_lastVote_mono v s0

set_option maxHeartbeats 2000000 in
/-- A vote is signed or delivered only when the proposal's view beats
`lastVote`, and then `lastVote` has been raised to exactly that view. -/
theorem onPropose_vote_guard (e : CEnv) (s : CState) (v : Nat) :
    (CAction.signPartialCert v ∈ (onPropose e s).2 ∨
     CAction.voteSelf v ∈ (onPropose e s).2 ∨
     CAction.voteSent v ∈ (onPropose e s).2) →
    v = e.blockView ∧ s.lastVote < e.blockView ∧
    (onPropose e s).1.lastVote = e.blockView := by
  unfold onPropose
  rcases hct : e.commitTarget with _ | cv <;>
    split_ifs <;> intro h <;> simp_all

set_option maxHeartbeats 2000000 in
/-- A stale proposal (view at most `lastVote`) is dropped without
signing, voting, or persisting, and the state is unchanged. -/
theorem onPropose_stale_dropped (e : CEnv) (s : CState)
    (h : ¬ s.lastVote < e.blockView) :
    (onPropose e s).1 = s ∧
    ∀ v, CAction.signPartialCert v ∉ (onPropose e s).2 ∧
         CAction.voteSelf v ∉ (onPropose e s).2 ∧
         CAction.voteSent v ∉ (onPropose e s).2 ∧
         CAction.persistLastVote v ∉ (onPropose e s).2 := by
  unfold onPropose
  rcases hct : e.commitTarget with _ | cv <;> split_ifs <;> simp_all

/-- A list is a sublist of anything that surrounds it. -/
theorem sublist_surround {α : Type} (l1 l2 xs : List α) :
    xs.Sublist (l1 ++ (xs ++ l2)) :=
  (List.sublist_append_left xs l2).trans
    (List.sublist_append_right l1 (xs ++ l2))

set_option maxHeartbeats 4000000 in
/-- In every `OnPropose` trace, the `SetLastVote` persistence precedes
the partial-certificate signing, which precedes the vote delivery. -/
theorem onPropose_persist_precedes (e : CEnv) (s : CState) :
    (∀ v, CAction.signPartialCert v ∈ (onPropose e s).2 →
      List.Sublist [CAction.persistLastVote e.blockView,
        CAction.signPartialCert e.blockView] (onPropose e s).2) ∧
    (∀ v, CAction.voteSent v ∈ (onPropose e s).2 →
      List.Sublist [CAction.persistLastVote e.blockView,
        CAction.signPartialCert e.blockView,
        CAction.voteSent e.blockView] (onPropose e s).2) ∧
    (∀ v, CAction.voteSelf v ∈ (onPropose e s).2 →
      List.Sublist [CAction.persistLastVote e.blockView,
        CAction.signPartialCert e.blockView,
        CAction.voteSelf e.blockView] (onPropose e s).2) := by
  obtain ⟨bv, a, q, f, vr, qf, ac, ct, so, nls, lf⟩ := e
  cases a <;> cases q <;> cases f <;> cases vr <;> cases ac <;>
    rcases ct with _ | cv <;>
    simp only [onPropose] <;> norm_num <;>
    (try split_ifs) <;>
    (refine ⟨fun v hv => ?_, fun v hv => ?_, fun v hv => ?_⟩ <;>
      simp at hv <;>
      (try (intro hF; exact hF.elim)) <;>
      (repeat (first
        | exact List.nil_sublist _
        | apply List.Sublist.cons₂
        | apply List.Sublist.cons)))

/-- Claim C1: a vote is signed or delivered only when the proposal's
view strictly exceeds the stored `lastVote` (third conjunct), in which
case `lastVote` is set to the block's view, and the `SetLastVote`
persistence call precedes the signing and the vote delivery in the
handler's action order (fifth and sixth conjuncts); a stale proposal is
dropped with no vote, no persistence and no state change (fourth
conjunct); and `lastVote` is non-decreasing across every sequence of
`OnPropose` and `StopVoting` calls (first, second and last conjuncts). -/
theorem c1_lastVote_guard :
    ∀ (e : CEnv) (s : CState),
      s.lastVote ≤ (onPropose e s).1.lastVote ∧
      (∀ v, s.lastVote ≤ (stopVoting v s).1.lastVote) ∧
      (∀ v, (CAction.signPartialCert v ∈ (onPropose e s).2 ∨
             CAction.voteSelf v ∈ (onPropose e s).2 ∨
             CAction.voteSent v ∈ (onPropose e s).2) →
        v = e.blockView ∧ s.lastVote < e.blockView ∧
        (onPropose e s).1.lastVote = e.blockView) ∧
      (¬ s.lastVote < e.blockView →
        (onPropose e s).1 = s ∧
        ∀ v, CAction.signPartialCert v ∉ (onPropose e s).2 ∧
             CAction.voteSelf v ∉ (onPropose e s).2 ∧
             CAction.voteSent v ∉ (onPropose e s).2 ∧
             CAction.persistLastVote v ∉ (onPropose e s).2) ∧
      (∀ v, CAction.signPartialCert v ∈ (onPropose e s).2 →
        List.Sublist [CAction.persistLastVote e.blockView,
          CAction.signPartialCert e.blockView] (onPropose e s).2) ∧
      (∀ v, CAction.voteSent v ∈ (onPropose e s).2 →
        List.Sublist [CAction.persistLastVote e.blockView,
          CAction.signPartialCert e.blockView,
          CAction.voteSent e.blockView] (onPropose e s).2) ∧
      (∀ (evs : List CEvent) (s0 : CState),
        s0.lastVote ≤ (runEvents s0 evs).lastVote) :=
  fun e s =>
    ⟨onPropose_lastVote_mono e s,
     fun v => stopVoting_lastVote_mono v s,
     fun v h => onPropose_vote_guard e s v h,
     fun h => onPropose_stale_dropped e s h,
     (onPropose_persist_precedes e s).1,
     (onPropose_persist_precedes e s).2.1,
     fun evs s0 => runEvents_lastVote_mono evs s0⟩

/-- Witness for `c1_lastVote_guard`: with `lastVote = 3` and a passing
proposal at view 5, the vote is sent, `lastVote` rises to 5, and the
persist-sign-send order holds; with `lastVote = 7` the same proposal is
dropped unchanged. -/
theorem c1_lastVote_guard_witness :
    ((3 : Nat) < 5 ∧ (onPropose c1Env ⟨3⟩).1.lastVote = 5) ∧
    List.Sublist [CAction.persistLastVote 5, CAction.signPartialCert 5,
      CAction.voteSent 5] (onPropose c1Env ⟨3⟩).2 ∧
    (onPropose c1Env ⟨7⟩).1 = ⟨7⟩ :=
  ⟨⟨by decide,
    ((c1_lastVote_guard c1Env ⟨3⟩).2.2.1 5
      (Or.inr (Or.inr (by decide)))).2.2⟩,
   (c1_lastVote_guard c1Env ⟨3⟩).2.2.2.2.2.1 5 (by decide),
   ((c1_lastVote_guard c1Env ⟨7⟩).2.2.2.1 (by decide)).1⟩

/-! ### Observable effects of the TrieStateDB operations -/

theorem setAccount_getBalance (s : TrieStateDB) (a : Nat) (acct : AccountState)
    (b : Nat) :
    (s.setAccount a acct).getBalance b =
      if b = a then acct.balance else s.getBalance b := by
  by_cases hb : b = a <;>
    simp [TrieStateDB.setAccount, TrieStateDB.getBalance,
      TrieStateDB.getAccount, hb]

theorem setAccount_getNonce (s : TrieStateDB) (a : Nat) (acct : AccountState)
    (b : Nat) :
    (s.setAccount a acct).getNonce b =
      if b = a then acct.nonce else s.getNonce b := by
  by_cases hb : b = a <;>
    simp [TrieStateDB.setAccount, TrieStateDB.getNonce,
      TrieStateDB.getAccount, hb]

theorem setAccount_getCode (s : TrieStateDB) (a : Nat) (acct : AccountState)
    (b : Nat) :
    (s.setAccount a acct).getCode b =
      if b = a then
        (if acct.codeHash = 0 then [] else (s.codeStore acct.codeHash).getD [])
      else s.getCode b := by
  by_cases hb : b = a <;>
    simp [TrieStateDB.setAccount, TrieStateDB.getCode,
      TrieStateDB.getAccount, hb]

theorem setAccount_getState (env : TrieEnv) (s : TrieStateDB) (a : Nat)
    (acct : AccountState) (b k : Nat)
    (h : acct.storageRoot = (s.getAccount a).storageRoot) :
    (s.setAccount a acct).getState env b k = s.getState env b k := by
  by_cases hb : b = a
  · subst hb
    simp [TrieStateDB.setAccount, TrieStateDB.getState,
      TrieStateDB.getAccount, h]
  · simp [TrieStateDB.setAccount, TrieStateDB.getState,
      TrieStateDB.getAccount, hb]

theorem setBalance_obs (env : TrieEnv) (s : TrieStateDB) (a : Nat) (v : Int) :
    (∀ b, (s.setBalance a v).getBalance b =
      if b = a then v else s.getBalance b) ∧
    (∀ b, (s.setBalance a v).getNonce b = s.getNonce b) ∧
    (∀ b, (s.setBalance a v).getCode b = s.getCode b) ∧
    (∀ b k, (s.setBalance a v).getState env b k = s.getState env b k) := by
  refine ⟨fun b => ?_, fun b => ?_, fun b => ?_, fun b k => ?_⟩ <;>
    by_cases hb : b = a <;>
    simp [TrieStateDB.setBalance, TrieStateDB.setAccount,
      TrieStateDB.getBalance, TrieStateDB.getNonce, TrieStateDB.getCode,
      TrieStateDB.getState, TrieStateDB.getAccount, hb]

theorem addBalance_obs (env : TrieEnv) (s : TrieStateDB) (a : Nat) (amt : Int) :
    (∀ b, (s.addBalance a amt).getBalance b =
      if b = a then s.getBalance a + amt else s.getBalance b) ∧
    (∀ b, (s.addBalance a amt).getNonce b = s.getNonce b) ∧
    (∀ b, (s.addBalance a amt).getCode b = s.getCode b) ∧
    (∀ b k, (s.addBalance a amt).getState env b k = s.getState env b k) := by
  refine ⟨fun b => ?_, fun b => ?_, fun b => ?_, fun b k => ?_⟩ <;>
    by_cases hb : b = a <;>
    simp [TrieStateDB.addBalance, TrieStateDB.setAccount,
      TrieStateDB.getBalance, TrieStateDB.getNonce, TrieStateDB.getCode,
      TrieStateDB.getState, TrieStateDB.getAccount, hb]

theorem subBalance_obs (env : TrieEnv) (s : TrieStateDB) (a : Nat) (amt : Int) :
    (∀ b, (s.subBalance a amt).getBalance b =
      if b = a then s.getBalance a - amt else s.getBalance b) ∧
    (∀ b, (s.subBalance a amt).getNonce b = s.getNonce b) ∧
    (∀ b, (s.subBalance a amt).getCode b = s.getCode b) ∧
    (∀ b k, (s.subBalance a amt).getState env b k = s.getState env b k) := by
  refine ⟨fun b => ?_, fun b => ?_, fun b => ?_, fun b k => ?_⟩ <;>
    by_cases hb : b = a <;>
    simp [TrieStateDB.subBalance, TrieStateDB.setAccount,
      TrieStateDB.getBalance, TrieStateDB.getNonce, TrieStateDB.getCode,
      TrieStateDB.getState, TrieStateDB.getAccount, hb]

theorem setNonce_obs (env : TrieEnv) (s : TrieStateDB) (a n : Nat) :
    (∀ b, (s.setNonce a n).getNonce b = if b = a then n else s.getNonce b) ∧
    (∀ b, (s.setNonce a n).getBalance b = s.getBalance b) ∧
    (∀ b, (s.setNonce a n).getCode b = s.getCode b) ∧
    (∀ b k, (s.setNonce a n).getState env b k = s.getState env b k) := by
  refine ⟨fun b => ?_, fun b => ?_, fun b => ?_, fun b k => ?_⟩ <;>
    by_cases hb : b = a <;>
    simp [TrieStateDB.setNonce, TrieStateDB.setAccount,
      TrieStateDB.getBalance, TrieStateDB.getNonce, TrieStateDB.getCode,
      TrieStateDB.getState, TrieStateDB.getAccount, hb]

theorem setCode_getCode_self (env : TrieEnv)
    (hz : ∀ c : List Nat, c ≠ [] → env.keccak c ≠ 0)
    (s : TrieStateDB) (a : Nat) (c : List Nat) :
    (s.setCode env a c).getCode a = c := by
  by_cases hc : c = []
  · subst hc
    simp [TrieStateDB.setCode, TrieStateDB.setAccount, TrieStateDB.getCode,
      TrieStateDB.getAccount]
  · simp only [TrieStateDB.setCode, hc, if_neg hc]
    simp [TrieStateDB.setAccount, TrieStateDB.getCode, TrieStateDB.getAccount,
      hz c hc]

theorem setCode_getCode_other (env : TrieEnv)
    (hinj : Function.Injective env.keccak)
    (s : TrieStateDB) (hwf : TrieWF env s) (a : Nat) (c : List Nat)
    (b : Nat) (hb : b ≠ a) :
    (s.setCode env a c).getCode b = s.getCode b := by
  by_cases hc : c = []
  · subst hc
    simp [TrieStateDB.setCode, TrieStateDB.setAccount, TrieStateDB.getCode,
      TrieStateDB.getAccount, hb]
  · simp only [TrieStateDB.setCode, if_neg hc]
    simp only [TrieStateDB.setAccount, TrieStateDB.getCode,
      TrieStateDB.getAccount, hb, if_neg hb]
    rcases hacc : s.accounts b with _ | acctb
    · simp [hacc, emptyAccount]
    · simp only [hacc, Option.getD_some]
      by_cases hch : acctb.codeHash = 0
      · simp [hch]
      · rcases hwf b acctb hacc hch with ⟨c0, hc0, hc0ne, hkec⟩
        simp only [if_neg hch, hc0]
        by_cases heq : acctb.codeHash = env.keccak c
        · have hcc : c0 = c := hinj (hkec.trans heq)
          simp [heq, hcc]
          intro h
          exact absurd (heq.trans h) hch
        · simp [heq, hch, hc0]

theorem setCode_other_obs (env : TrieEnv) (s : TrieStateDB) (a : Nat)
    (c : List Nat) :
    (∀ b, (s.setCode env a c).getBalance b = s.getBalance b) ∧
    (∀ b, (s.setCode env a c).getNonce b = s.getNonce b) ∧
    (∀ b k, (s.setCode env a c).getState env b k = s.getState env b k) := by
  refine ⟨fun b => ?_, fun b => ?_, fun b k => ?_⟩ <;>
    by_cases hc : c = [] <;>
    by_cases hb : b = a <;>
    simp [TrieStateDB.setCode, TrieStateDB.setAccount, TrieStateDB.getBalance,
      TrieStateDB.getNonce, TrieStateDB.getState, TrieStateDB.getAccount,
      hc, hb]

theorem setState_getState_self (env : TrieEnv) (s : TrieStateDB)
    (a k v : Nat) :
    (s.setState env a k v).getState env a k = v := by
  by_cases hv : v = 0 <;>
    simp [TrieStateDB.setState, TrieStateDB.setAccount, TrieStateDB.getState,
      TrieStateDB.getAccount, hv]

theorem setState_getState_other_key (env : TrieEnv) (s : TrieStateDB)
    (a k v k2 : Nat) (hk : k2 ≠ k) :
    (s.setState env a k v).getState env a k2 = s.getState env a k2 := by
  by_cases hv : v = 0 <;>
    simp only [TrieStateDB.setState, TrieStateDB.setAccount,
      TrieStateDB.getState, TrieStateDB.getAccount, TrieStateDB.loadedStorage,
      hv, if_pos rfl, if_true, if_neg hk] <;>
    rcases hst : s.storageTries a with _ | t <;>
    simp [hst, hk] <;>
    rcases hacc : s.accounts a with _ | acct <;>
    simp [hacc, emptyAccount] <;>
    by_cases hr : acct.storageRoot = 0 <;>
    simp [hr, hk] <;>
    rcases hdb : env.extDB acct.storageRoot with _ | m <;>
    simp [hdb, hk]

theorem setState_getState_other_addr (env : TrieEnv) (s : TrieStateDB)
    (a k v b k2 : Nat) (hb : b ≠ a) :
    (s.setState env a k v).getState env b k2 = s.getState env b k2 := by
  simp [TrieStateDB.setState, TrieStateDB.setAccount, TrieStateDB.getState,
    TrieStateDB.getAccount, hb]

theorem setState_other_obs (env : TrieEnv) (s : TrieStateDB) (a k v : Nat) :
    (∀ b, (s.setState env a k v).getBalance b = s.getBalance b) ∧
    (∀ b, (s.setState env a k v).getNonce b = s.getNonce b) ∧
    (∀ b, (s.setState env a k v).getCode b = s.getCode b) := by
  refine ⟨fun b => ?_, fun b => ?_, fun b => ?_⟩ <;>
    by_cases hb : b = a <;>
    simp [TrieStateDB.setState, TrieStateDB.setAccount, TrieStateDB.getBalance,
      TrieStateDB.getNonce, TrieStateDB.getCode, TrieStateDB.getAccount, hb]

/-! ### Well-formedness is preserved by the operations and reverts -/

theorem wf_setAccount (env : TrieEnv) (s : TrieStateDB) (hwf : TrieWF env s)
    (a : Nat) (acct : AccountState)
    (h : acct.codeHash = (s.getAccount a).codeHash) :
    TrieWF env (s.setAccount a acct) := by
  intro b acctb hacc hch
  have hcs : (s.setAccount a acct).codeStore = s.codeStore := rfl
  rw [hcs]
  simp only [TrieStateDB.setAccount] at hacc
  by_cases hb : b = a
  · subst hb
    rw [if_pos rfl] at hacc
    injection hacc with he
    rw [← he] at hch ⊢
    rw [h] at hch ⊢
    rcases hacc0 : s.accounts b with _ | acct0
    · refine absurd ?_ hch
      simp [TrieStateDB.getAccount, hacc0, emptyAccount]
    · have hg : (s.getAccount b).codeHash = acct0.codeHash := by
        simp [TrieStateDB.getAccount, hacc0]
      rw [hg] at hch ⊢
      exact hwf b acct0 hacc0 hch
  · rw [if_neg hb] at hacc
    exact hwf b acctb hacc hch

theorem wf_setBalance (env : TrieEnv) (s : TrieStateDB) (hwf : TrieWF env s)
    (a : Nat) (v : Int) : TrieWF env (s.setBalance a v) :=
  wf_setAccount env _ hwf a _ rfl

theorem wf_addBalance (env : TrieEnv) (s : TrieStateDB) (hwf : TrieWF env s)
    (a : Nat) (amt : Int) : TrieWF env (s.addBalance a amt) :=
  wf_setAccount env _ hwf a _ rfl

theorem wf_subBalance (env : TrieEnv) (s : TrieStateDB) (hwf : TrieWF env s)
    (a : Nat) (amt : Int) : TrieWF env (s.subBalance a amt) :=
  wf_setAccount env _ hwf a _ rfl

theorem wf_setNonce (env : TrieEnv) (s : TrieStateDB) (hwf : TrieWF env s)
    (a n : Nat) : TrieWF env (s.setNonce a n) :=
  wf_setAccount env _ hwf a _ rfl

theorem wf_setState (env : TrieEnv) (s : TrieStateDB) (hwf : TrieWF env s)
    (a k v : Nat) : TrieWF env (s.setState env a k v) :=
  wf_setAccount env _ hwf a _ rfl

theorem wf_setCode (env : TrieEnv) (hinj : Function.Injective env.keccak)
    (s : TrieStateDB) (hwf : TrieWF env s) (a : Nat) (c : List Nat) :
    TrieWF env (s.setCode env a c) := by
  by_cases hc : c = []
  · subst hc
    intro b acctb hacc hch
    have hcs : (s.setCode env a []).codeStore = s.codeStore := by
      simp [TrieStateDB.setCode, TrieStateDB.setAccount]
    rw [hcs]
    by_cases hb : b = a
    · subst hb
      simp [TrieStateDB.setCode, TrieStateDB.setAccount] at hacc
      exact absurd (by rw [← hacc]) hch
    · simp [TrieStateDB.setCode, TrieStateDB.setAccount, hb] at hacc
      exact hwf b acctb hacc hch
  · intro b acctb hacc hch
    simp only [TrieStateDB.setCode, if_neg hc, TrieStateDB.setAccount] at hacc
    have hcs : (s.setCode env a c).codeStore = fun x =>
        if x = env.keccak c then some c else s.codeStore x := by
      simp [TrieStateDB.setCode, if_neg hc, TrieStateDB.setAccount]
    rw [hcs]
    by_cases hb : b = a
    · subst hb
      rw [if_pos rfl] at hacc
      injection hacc with he
      rw [← he] at hch ⊢
      refine ⟨c, ?_, hc, ?_⟩
      · simp
      · simp
    · rw [if_neg hb] at hacc
      rcases hwf b acctb hacc hch with ⟨c0, hc0, hc0ne, hkec⟩
      by_cases heq : acctb.codeHash = env.keccak c
      · have hcc : c0 = c := hinj (hkec.trans heq)
        exact ⟨c0, by simp [heq, hcc], hc0ne, hkec⟩
      · exact ⟨c0, by simp [heq, hc0], hc0ne, hkec⟩

/-! ### Journal bookkeeping -/

theorem applyOp_journal (env : TrieEnv) (s : TrieStateDB) (op : TrieOp) :
    (trieApplyOp env s op).journal = s.journal ++ [entryOf env s op] := by
  cases op with
  | setCodeOp a c =>
    by_cases hc : c = [] <;>
      simp [trieApplyOp, entryOf, TrieStateDB.setCode, TrieStateDB.setAccount, hc]
  | setStateOp a k v =>
    simp [trieApplyOp, entryOf, TrieStateDB.setState, TrieStateDB.setAccount,
      TrieStateDB.getBalance]
  | _ =>
    simp [trieApplyOp, entryOf, TrieStateDB.setBalance, TrieStateDB.addBalance,
      TrieStateDB.subBalance, TrieStateDB.setNonce, TrieStateDB.setAccount,
      TrieStateDB.getBalance, TrieStateDB.getNonce]

theorem applyOp_snapshots (env : TrieEnv) (s : TrieStateDB) (op : TrieOp) :
    (trieApplyOp env s op).snapshots = s.snapshots := by
  cases op with
  | setCodeOp a c =>
    by_cases hc : c = [] <;>
      simp [trieApplyOp, TrieStateDB.setCode, TrieStateDB.setAccount, hc]
  | _ =>
    simp [trieApplyOp, TrieStateDB.setBalance, TrieStateDB.addBalance,
      TrieStateDB.subBalance, TrieStateDB.setNonce, TrieStateDB.setState,
      TrieStateDB.setAccount]

theorem applyOps_journal_prefix (env : TrieEnv) :
    ∀ (ops : List TrieOp) (s : TrieStateDB),
      ∃ E, (trieApplyOps env ops s).journal = s.journal ++ E := by
  intro ops
  induction ops with
  | nil => exact fun s => ⟨[], by simp [trieApplyOps]⟩
  | cons op rest ih =>
    intro s
    obtain ⟨E, hE⟩ := ih (trieApplyOp env s op)
    refine ⟨[entryOf env s op] ++ E, ?_⟩
    have h1 : trieApplyOps env (op :: rest) s =
        trieApplyOps env rest (trieApplyOp env s op) := rfl
    rw [h1, hE, applyOp_journal, List.append_assoc]

theorem applyOps_snapshots (env : TrieEnv) :
    ∀ (ops : List TrieOp) (s : TrieStateDB),
      (trieApplyOps env ops s).snapshots = s.snapshots := by
  intro ops
  induction ops with
  | nil => exact fun s => rfl
  | cons op rest ih =>
    intro s
    have h1 : trieApplyOps env (op :: rest) s =
        trieApplyOps env rest (trieApplyOp env s op) := rfl
    rw [h1, ih, applyOp_snapshots]

/-! ### Effects of replaying single journal entries -/

theorem revertOne_balance_obs (env : TrieEnv) (t : TrieStateDB) (a : Nat)
    (p : Int) :
    (∀ b, (t.revertOne env (.balanceC a p)).getBalance b =
      if b = a then p else t.getBalance b) ∧
    (∀ b, (t.revertOne env (.balanceC a p)).getNonce b = t.getNonce b) ∧
    (∀ b, (t.revertOne env (.balanceC a p)).getCode b = t.getCode b) ∧
    (∀ b k, (t.revertOne env (.balanceC a p)).getState env b k =
      t.getState env b k) := by
  refine ⟨fun b => ?_, fun b => ?_, fun b => ?_, fun b k => ?_⟩ <;>
    by_cases hb : b = a <;>
    simp [TrieStateDB.revertOne, TrieStateDB.setAccount, TrieStateDB.getBalance,
      TrieStateDB.getNonce, TrieStateDB.getCode, TrieStateDB.getState,
      TrieStateDB.getAccount, hb]

theorem revertOne_nonce_obs (env : TrieEnv) (t : TrieStateDB) (a p : Nat) :
    (∀ b, (t.revertOne env (.nonceC a p)).getNonce b =
      if b = a then p else t.getNonce b) ∧
    (∀ b, (t.revertOne env (.nonceC a p)).getBalance b = t.getBalance b) ∧
    (∀ b, (t.revertOne env (.nonceC a p)).getCode b = t.getCode b) ∧
    (∀ b k, (t.revertOne env (.nonceC a p)).getState env b k =
      t.getState env b k) := by
  refine ⟨fun b => ?_, fun b => ?_, fun b => ?_, fun b k => ?_⟩ <;>
    by_cases hb : b = a <;>
    simp [TrieStateDB.revertOne, TrieStateDB.setAccount, TrieStateDB.getBalance,
      TrieStateDB.getNonce, TrieStateDB.getCode, TrieStateDB.getState,
      TrieStateDB.getAccount, hb]

theorem wf_revertOne (env : TrieEnv) (hinj : Function.Injective env.keccak)
    (t : TrieStateDB) (hwf : TrieWF env t) (e : TrieChange) :
    TrieWF env (t.revertOne env e) := by
  cases e with
  | balanceC a p => exact wf_setAccount env _ hwf a _ rfl
  | nonceC a p => exact wf_setAccount env _ hwf a _ rfl
  | codeC a p => exact wf_setCode env hinj t hwf a p
  | storageC a k p => exact wf_setState env t hwf a k p

theorem revertOne_storageC (env : TrieEnv) (t : TrieStateDB) (a k p : Nat) :
    t.revertOne env (.storageC a k p) = t.setState env a k p := rfl

/-- Replaying the journal suffix written by a list of operations restores
every observable of the pre-operation state, and preserves
well-formedness. -/
theorem replay_restores (env : TrieEnv) (hinj : Function.Injective env.keccak)
    (hz : ∀ c : List Nat, c ≠ [] → env.keccak c ≠ 0) :
    ∀ (ops : List TrieOp) (s : TrieStateDB), TrieWF env s →
      (∀ a, (restoreRun env ops s).getBalance a = s.getBalance a) ∧
      (∀ a, (restoreRun env ops s).getNonce a = s.getNonce a) ∧
      (∀ a, (restoreRun env ops s).getCode a = s.getCode a) ∧
      (∀ a k, (restoreRun env ops s).getState env a k = s.getState env a k) ∧
      TrieWF env (restoreRun env ops s) := by
  intro ops
  induction ops with
  | nil =>
    intro s hwf
    have h : restoreRun env [] s = s := by
      simp [restoreRun, trieApplyOps, List.drop_length]
    rw [h]
    exact ⟨fun a => rfl, fun a => rfl, fun a => rfl, fun a k => rfl, hwf⟩
  | cons op rest ih =>
    intro s hwf
    have hstep : restoreRun env (op :: rest) s =
        (restoreRun env rest (trieApplyOp env s op)).revertOne env
          (entryOf env s op) := by
      obtain ⟨E, hE⟩ := applyOps_journal_prefix env rest (trieApplyOp env s op)
      have h1 : trieApplyOps env (op :: rest) s =
          trieApplyOps env rest (trieApplyOp env s op) := rfl
      have hj : (trieApplyOps env rest (trieApplyOp env s op)).journal =
          s.journal ++ ([entryOf env s op] ++ E) := by
        rw [hE, applyOp_journal, List.append_assoc]
      have hdrop : ((trieApplyOps env rest (trieApplyOp env s op)).journal.drop
          s.journal.length) = entryOf env s op :: E := by
        rw [hj, List.drop_left]
        rfl
      have hdrop2 : ((trieApplyOps env rest (trieApplyOp env s op)).journal.drop
          (trieApplyOp env s op).journal.length) = E := by
        rw [hE, List.drop_left]
      simp only [restoreRun, h1, hdrop, hdrop2]
      rw [List.reverse_cons, List.foldl_append]
      rfl
    rw [hstep]
    have hwf1 : TrieWF env (trieApplyOp env s op) := by
      cases op with
      | setBalanceOp a v => exact wf_setBalance env s hwf a v
      | addBalanceOp a amt => exact wf_addBalance env s hwf a amt
      | subBalanceOp a amt => exact wf_subBalance env s hwf a amt
      | setNonceOp a n => exact wf_setNonce env s hwf a n
      | setCodeOp a c => exact wf_setCode env hinj s hwf a c
      | setStateOp a k v => exact wf_setState env s hwf a k v
    obtain ⟨ihb, ihn, ihc, ihs, ihw⟩ := ih (trieApplyOp env s op) hwf1
    cases op with
    | setBalanceOp a v =>
      simp only [entryOf, trieApplyOp] at *
      refine ⟨fun b => ?_, fun b => ?_, fun b => ?_, fun b k => ?_, ?_⟩
      · rw [(revertOne_balance_obs env _ a _).1 b]
        by_cases hb : b = a
        · rw [if_pos hb, hb]
        · rw [if_neg hb, ihb b, (setBalance_obs env s a v).1 b, if_neg hb]
      · rw [(revertOne_balance_obs env _ a _).2.1 b, ihn b,
          (setBalance_obs env s a v).2.1 b]
      · rw [(revertOne_balance_obs env _ a _).2.2.1 b, ihc b,
          (setBalance_obs env s a v).2.2.1 b]
      · rw [(revertOne_balance_obs env _ a _).2.2.2 b k, ihs b k,
          (setBalance_obs env s a v).2.2.2 b k]
      · exact wf_revertOne env hinj _ ihw _
    | addBalanceOp a amt =>
      simp only [entryOf, trieApplyOp] at *
      refine ⟨fun b => ?_, fun b => ?_, fun b => ?_, fun b k => ?_, ?_⟩
      · rw [(revertOne_balance_obs env _ a _).1 b]
        by_cases hb : b = a
        · rw [if_pos hb, hb]
        · rw [if_neg hb, ihb b, (addBalance_obs env s a amt).1 b, if_neg hb]
      · rw [(revertOne_balance_obs env _ a _).2.1 b, ihn b,
          (addBalance_obs env s a amt).2.1 b]
      · rw [(revertOne_balance_obs env _ a _).2.2.1 b, ihc b,
          (addBalance_obs env s a amt).2.2.1 b]
      · rw [(revertOne_balance_obs env _ a _).2.2.2 b k, ihs b k,
          (addBalance_obs env s a amt).2.2.2 b k]
      · exact wf_revertOne env hinj _ ihw _
    | subBalanceOp a amt =>
      simp only [entryOf, trieApplyOp] at *
      refine ⟨fun b => ?_, fun b => ?_, fun b => ?_, fun b k => ?_, ?_⟩
      · rw [(revertOne_balance_obs env _ a _).1 b]
        by_cases hb : b = a
        · rw [if_pos hb, hb]
        · rw [if_neg hb, ihb b, (subBalance_obs env s a amt).1 b, if_neg hb]
      · rw [(revertOne_balance_obs env _ a _).2.1 b, ihn b,
          (subBalance_obs env s a amt).2.1 b]
      · rw [(revertOne_balance_obs env _ a _).2.2.1 b, ihc b,
          (subBalance_obs env s a amt).2.2.1 b]
      · rw [(revertOne_balance_obs env _ a _).2.2.2 b k, ihs b k,
          (subBalance_obs env s a amt).2.2.2 b k]
      · exact wf_revertOne env hinj _ ihw _
    | setNonceOp a n =>
      simp only [entryOf, trieApplyOp] at *
      refine ⟨fun b => ?_, fun b => ?_, fun b => ?_, fun b k => ?_, ?_⟩
      · rw [(revertOne_nonce_obs env _ a _).2.1 b, ihb b,
          (setNonce_obs env s a n).2.1 b]
      · rw [(revertOne_nonce_obs env _ a _).1 b]
        by_cases hb : b = a
        · rw [if_pos hb, hb]
        · rw [if_neg hb, ihn b, (setNonce_obs env s a n).1 b, if_neg hb]
      · rw [(revertOne_nonce_obs env _ a _).2.2.1 b, ihc b,
          (setNonce_obs env s a n).2.2.1 b]
      · rw [(revertOne_nonce_obs env _ a _).2.2.2 b k, ihs b k,
          (setNonce_obs env s a n).2.2.2 b k]
      · exact wf_revertOne env hinj _ ihw _
    | setCodeOp a c =>
      simp only [entryOf, trieApplyOp] at *
      refine ⟨fun b => ?_, fun b => ?_, fun b => ?_, fun b k => ?_, ?_⟩
      · have h1 : (TrieStateDB.revertOne env _ (.codeC a (s.getCode a))).getBalance b =
            (restoreRun env rest (s.setCode env a c)).getBalance b :=
          (setCode_other_obs env _ a _).1 b
        rw [h1, ihb b, (setCode_other_obs env s a c).1 b]
      · have h1 : (TrieStateDB.revertOne env _ (.codeC a (s.getCode a))).getNonce b =
            (restoreRun env rest (s.setCode env a c)).getNonce b :=
          (setCode_other_obs env _ a _).2.1 b
        rw [h1, ihn b, (setCode_other_obs env s a c).2.1 b]
      · by_cases hb : b = a
        · subst hb
          have h1 : (TrieStateDB.revertOne env
              (restoreRun env rest (s.setCode env b c)) (.codeC b (s.getCode b))).getCode b =
              s.getCode b :=
            setCode_getCode_self env hz _ b (s.getCode b)
          exact h1
        · have h1 : (TrieStateDB.revertOne env
              (restoreRun env rest (s.setCode env a c)) (.codeC a (s.getCode a))).getCode b =
              (restoreRun env rest (s.setCode env a c)).getCode b :=
            setCode_getCode_other env hinj _ ihw a _ b hb
          rw [h1, ihc b]
          exact setCode_getCode_other env hinj s hwf a c b hb
      · have h1 : (TrieStateDB.revertOne env _ (.codeC a (s.getCode a))).getState env b k =
            (restoreRun env rest (s.setCode env a c)).getState env b k :=
          (setCode_other_obs env _ a _).2.2 b k
        rw [h1, ihs b k, (setCode_other_obs env s a c).2.2 b k]
      · exact wf_revertOne env hinj _ ihw _
    | setStateOp a k v =>
      simp only [entryOf, trieApplyOp, revertOne_storageC] at *
      refine ⟨fun b => ?_, fun b => ?_, fun b => ?_, fun b k2 => ?_, ?_⟩
      · rw [(setState_other_obs env _ a k _).1 b, ihb b,
          (setState_other_obs env s a k v).1 b]
      · rw [(setState_other_obs env _ a k _).2.1 b, ihn b,
          (setState_other_obs env s a k v).2.1 b]
      · rw [(setState_other_obs env _ a k _).2.2 b, ihc b,
          (setState_other_obs env s a k v).2.2 b]
      · by_cases hb : b = a
        · subst hb
          by_cases hk : k2 = k
          · subst hk
            exact setState_getState_self env _ b k2 (s.getState env b k2)
          · rw [setState_getState_other_key env _ b k _ k2 hk, ihs b k2,
              setState_getState_other_key env s b k v k2 hk]
        · rw [setState_getState_other_addr env _ a k _ b k2 hb, ihs b k2,
            setState_getState_other_addr env s a k v b k2 hb]
      · exact wf_setState env _ ihw a k _

theorem getD_append_length (l : List Nat) (x d : Nat) :
    (l ++ [x]).getD l.length d = x := by
  induction l with
  | nil => rfl
  | cons h t ih => simpa using ih

theorem snapshot_snd (s : TrieStateDB) :
    (s.snapshot).2 = s.snapshots.length := rfl

theorem snapshot_fst_journal (s : TrieStateDB) :
    (s.snapshot).1.journal = s.journal := rfl

theorem revertToSnapshot_restoreRun (env : TrieEnv) (ops : List TrieOp)
    (s : TrieStateDB) :
    (trieApplyOps env ops (s.snapshot).1).revertToSnapshot env (s.snapshot).2 =
    { restoreRun env ops (s.snapshot).1 with
        journal := s.journal, snapshots := s.snapshots } := by
  obtain ⟨E, hE⟩ := applyOps_journal_prefix env ops (s.snapshot).1
  have hsnap : (trieApplyOps env ops (s.snapshot).1).snapshots =
      s.snapshots ++ [s.journal.length] := applyOps_snapshots env ops _
  have hlt : (s.snapshot).2 <
      (trieApplyOps env ops (s.snapshot).1).snapshots.length := by
    rw [hsnap, snapshot_snd]
    simp
  have hpos : (trieApplyOps env ops (s.snapshot).1).snapshots.getD
      s.snapshots.length 0 = s.journal.length := by
    rw [hsnap]
    exact getD_append_length s.snapshots s.journal.length 0
  have hE' : (trieApplyOps env ops (s.snapshot).1).journal =
      s.journal ++ E := hE
  rw [TrieStateDB.revertToSnapshot, if_pos hlt]
  simp only [restoreRun, snapshot_snd, snapshot_fst_journal, hpos, hE', hsnap,
    getD_append_length, List.drop_left, List.take_left]

theorem injKec_injective : Function.Injective injKec := by
  intro x
  induction x with
  | nil =>
    intro y h
    cases y with
    | nil => rfl
    | cons c u => simp [injKec] at h
  | cons b t ih =>
    intro y h
    cases y with
    | nil => simp [injKec] at h
    | cons c u =>
      simp only [injKec, Nat.succ.injEq] at h
      obtain ⟨hbc, htu⟩ := Nat.pair_eq_pair.mp h
      rw [hbc, ih htu]

theorem injKec_ne_zero : ∀ c : List Nat, c ≠ [] → injKec c ≠ 0 := by
  intro c hc
  cases c with
  | nil => exact absurd rfl hc
  | cons b t => simp [injKec]

set_option maxHeartbeats 1000000 in
/-- C4: for the TrieStateDB, given an injective code hash that is nonzero
on nonempty code, reverting to a snapshot after any sequence of balance,
nonce, code and storage mutations replays the inverse journal entries
and restores every observable — balance, nonce, code, and storage slot
of every account — to its value when the snapshot was taken, and
truncates the journal and the snapshot stack back to their pre-snapshot
contents. -/
theorem c4_trie_revert_restores (env : TrieEnv)
    (hinj : Function.Injective env.keccak)
    (hz : ∀ c : List Nat, c ≠ [] → env.keccak c ≠ 0)
    (s : TrieStateDB) (hwf : TrieWF env s) (ops : List TrieOp) :
    (∀ a, ((trieApplyOps env ops (s.snapshot).1).revertToSnapshot env
        (s.snapshot).2).getBalance a = s.getBalance a) ∧
    (∀ a, ((trieApplyOps env ops (s.snapshot).1).revertToSnapshot env
        (s.snapshot).2).getNonce a = s.getNonce a) ∧
    (∀ a, ((trieApplyOps env ops (s.snapshot).1).revertToSnapshot env
        (s.snapshot).2).getCode a = s.getCode a) ∧
    (∀ a k, TrieStateDB.getState env ((trieApplyOps env ops
        (s.snapshot).1).revertToSnapshot env (s.snapshot).2) a k =
        s.getState env a k) ∧
    ((trieApplyOps env ops (s.snapshot).1).revertToSnapshot env
        (s.snapshot).2).journal = s.journal ∧
    ((trieApplyOps env ops (s.snapshot).1).revertToSnapshot env
        (s.snapshot).2).snapshots = s.snapshots := by
  have hwf0 : TrieWF env (s.snapshot).1 := hwf
  obtain ⟨hb, hn, hc, hs, _⟩ := replay_restores env hinj hz ops (s.snapshot).1 hwf0
  rw [revertToSnapshot_restoreRun]
  exact ⟨fun a => hb a, fun a => hn a, fun a => hc a, fun a k => hs a k,
    rfl, rfl⟩

theorem c4_trie_revert_restores_witness :
    Function.Injective c4Env.keccak ∧
    (∀ c : List Nat, c ≠ [] → c4Env.keccak c ≠ 0) ∧
    TrieWF c4Env newTrieStateDB ∧
    ((∀ a, ((trieApplyOps c4Env c4Ops (newTrieStateDB.snapshot).1).revertToSnapshot
        c4Env (newTrieStateDB.snapshot).2).getBalance a =
        newTrieStateDB.getBalance a) ∧
     (∀ a, ((trieApplyOps c4Env c4Ops (newTrieStateDB.snapshot).1).revertToSnapshot
        c4Env (newTrieStateDB.snapshot).2).getNonce a =
        newTrieStateDB.getNonce a) ∧
     (∀ a, ((trieApplyOps c4Env c4Ops (newTrieStateDB.snapshot).1).revertToSnapshot
        c4Env (newTrieStateDB.snapshot).2).getCode a =
        newTrieStateDB.getCode a) ∧
     (∀ a k, TrieStateDB.getState c4Env ((trieApplyOps c4Env c4Ops
        (newTrieStateDB.snapshot).1).revertToSnapshot c4Env
        (newTrieStateDB.snapshot).2) a k =
        newTrieStateDB.getState c4Env a k) ∧
     ((trieApplyOps c4Env c4Ops (newTrieStateDB.snapshot).1).revertToSnapshot
        c4Env (newTrieStateDB.snapshot).2).journal = newTrieStateDB.journal ∧
     ((trieApplyOps c4Env c4Ops (newTrieStateDB.snapshot).1).revertToSnapshot
        c4Env (newTrieStateDB.snapshot).2).snapshots =
        newTrieStateDB.snapshots) :=
  ⟨injKec_injective, injKec_ne_zero,
   fun _ _ h => Option.noConfusion h,
   c4_trie_revert_restores c4Env injKec_injective injKec_ne_zero
     newTrieStateDB (fun _ _ h => Option.noConfusion h) c4Ops⟩
